import Mathlib

/-!
# Peer coordinator of `croupier` (`net/v23_manager.go`)

A shallow embedding of the `V23Manager`: the sorted player list, the door
state, the membership operations `recognizeOther` / `forgetOther`, the door
recompute `checkDoors` / `assureDoor`, the ball router `throwBall`, the
discovery `playerNumbers`, the start-up `IsReadyToRun` / `RunPrep` / `Run`, and
the start-up of the older `GameManager` of `game/manager.go`.

Conventions of the embedding.

* Go `int` values are `Int`.  Ids are compared without arithmetic, so results
  on ids hold for the values the program can hold; where the code adds
  (`last + 1`, `count++`) the result is reduced into the 64-bit range by
  `wrapInt`, the type `int` being taken as 64 bits wide.
* A method `func (gm *V23Manager) f(..)` becomes `f : V23Manager → .. → Outcome`:
  the manager is passed explicitly and the result says whether the call
  returned or panicked (`log.Panic`, nil dereference, send on a closed
  channel), together with the manager as the call left it.
* Output is recorded in two ghost fields of the manager: `doorsSent`, the
  door commands written to `chDoorCommand`, and `rpcs`, the remote calls
  attempted, each in program order.
* What the network and the directory answer is an argument of the function
  that asks: whether an `Accept` or a `Recognize` call fails, the replies of
  `ns.Glob`, whether `s.Serve` fails.
* Fields used for logging or owned by the v23 runtime (`chatty`, `ctx`,
  `shutdown`, `namespaceRoot`, `rpcOpts`, `relay`, `chBallCommand`, the request
  channels) are left out; log statements have no counterpart.
-/

namespace Croupier

/-! ## Data model -/

/-- Modelled from the spec: `model.DoorState`, whose declaration is outside the
sources at hand; section 3 gives its values as `Open` and `Closed`. -/
inductive DoorState where
  | Open
  | Closed
  deriving DecidableEq, Repr

/-- Modelled from the spec: `model.Direction` (`model.Left`, `model.Right`), the
side of a door and the direction of a throw. -/
inductive Direction where
  | Left
  | Right
  deriving DecidableEq, Repr

/-- Modelled from the spec: `model.DoorCommand`, written positionally in the
source as `model.DoorCommand{state, side}`. -/
structure DoorCommand where
  S : DoorState
  D : Direction
  deriving DecidableEq, Repr

/-- Modelled from the spec: `model.Player`, identified by its integer id
(`p.Id()`). -/
structure Player where
  id : Int
  deriving DecidableEq, Repr

/-- Modelled from the spec: `model.Vec` with `float32` coordinates.  The
coordinator only copies the coordinates, so each is carried as its 32-bit
pattern. -/
structure Vec where
  X : Nat
  Y : Nat
  deriving DecidableEq, Repr

/-- Modelled from the spec: `model.Ball` (`Owner()`, `GetPos()`, `GetVel()`). -/
structure Ball where
  owner : Player
  pos : Vec
  vel : Vec
  deriving DecidableEq, Repr

/-- Modelled from the spec: `model.BallCommand`, with the fields `B` and `D`
that `throwBall` and `sendBallRpc` read. -/
structure BallCommand where
  B : Ball
  D : Direction
  deriving DecidableEq, Repr

/-- Wire player `ifc.Player` of `game.vdl.go`: `Id int32`. -/
structure WirePlayer where
  Id : Int
  deriving DecidableEq, Repr

/-- Wire ball `ifc.Ball` of `game.vdl.go`. -/
structure WireBall where
  Owner : WirePlayer
  X : Nat
  Y : Nat
  Dx : Nat
  Dy : Nat
  deriving DecidableEq, Repr

/-- Client stub `implGameServiceClientStub`: the name it calls. -/
structure ClientStub where
  name : String
  deriving DecidableEq, Repr

/-- Stub constructor `ifc.GameServiceClient`. -/
def GameServiceClient (name : String) : ClientStub := ⟨name⟩

/-- Roster entry `vPlayer`: a player and the stub used to call it. -/
structure vPlayer where
  p : Player
  c : ClientStub
  deriving DecidableEq, Repr

/-- Remote calls the coordinator issues, with the roster entry called. -/
inductive Rpc where
  | Recognize (target : vPlayer) (wp : WirePlayer)
  | Forget (target : vPlayer) (wp : WirePlayer)
  | Accept (target : vPlayer) (wb : WireBall)
  deriving DecidableEq, Repr

/-- State of the channel `chDoorCommand`: the nil channel, a channel whose
consumer takes what is sent, or a channel closed by `stop`. -/
inductive Chan where
  | nil
  | ready
  | closed
  deriving DecidableEq, Repr

/-- Coordinator `V23Manager`, with the ghost fields `doorsSent` and `rpcs`. -/
structure V23Manager where
  isRunning : Bool
  isGameMaster : Bool
  leftDoor : DoorState
  rightDoor : DoorState
  rootName : String
  myself : Option Player
  players : List vPlayer
  initialPlayerNumbers : List Int
  chDoorCommand : Chan
  doorsSent : List DoorCommand
  rpcs : List Rpc
  deriving DecidableEq, Repr

/-- Result of a call on the manager: it returned, or it panicked with the
given message; either way the manager is as the call left it. -/
inductive Outcome where
  | done (gm : V23Manager)
  | panic (msg : String) (gm : V23Manager)
  deriving DecidableEq, Repr

/-- Manager carried by an outcome. -/
def Outcome.state : Outcome → V23Manager
  | .done gm => gm
  | .panic _ gm => gm

/-- Sequencing: a panic ends the computation. -/
def Outcome.andThen : Outcome → (V23Manager → Outcome) → Outcome
  | .done gm, f => f gm
  | .panic msg gm, _ => .panic msg gm

/-- Whether the call returned. -/
def Outcome.returned : Outcome → Bool
  | .done _ => true
  | .panic _ _ => false

/-- Message of the Go runtime for a method call through a nil pointer. -/
def nilDeref : String := "invalid memory address or nil pointer dereference"

/-- Message of the Go runtime for a send on a closed channel. -/
def sendOnClosed : String := "send on closed channel"

/-- Message of the Go runtime for an index outside a slice. -/
def indexOutOfRange : String := "index out of range"

/-! ## Names -/

/-- Format verb `%04d` of `fmt.Sprintf`: decimal, zero padded to width four,
the padding placed after the sign. -/
def fmt04d (n : Int) : String :=
  let digits := toString n.natAbs
  if n < 0 then
    "-" ++ String.mk (List.replicate (3 - digits.length) '0') ++ digits
  else
    String.mk (List.replicate (4 - digits.length) '0') ++ digits

/-- Name under which player `n` serves: `gm.serverName`. -/
def serverName (rootName : String) (n : Int) : String :=
  rootName ++ fmt04d n

/-! ## Roster operations -/

/-- Index of the insertion point: `gm.findInsertion`, the first index whose
member has an id greater than that of `p`, or the length of the list. -/
def findInsertion : List vPlayer → Player → Nat
  | [], _ => 0
  | member :: rest, p =>
    if p.id < member.p.id then 0 else findInsertion rest p + 1

/-- Loop of `findIndex` from index `i` with `n` indices left to try. -/
def findIndexFrom (predicate : Nat → Bool) (i : Nat) : Nat → Int
  | 0 => -1
  | n + 1 => if predicate i then (i : Int) else findIndexFrom predicate (i + 1) n

/-- First index below `limit` satisfying the predicate, or `-1`: `findIndex`. -/
def findIndex (limit : Nat) (predicate : Nat → Bool) : Int :=
  findIndexFrom predicate 0 limit

/-- Index of the first roster entry with the id of `p`, or `-1`:
`gm.findPlayerIndex`. -/
def findPlayerIndex (players : List vPlayer) (p : Player) : Int :=
  findIndex players.length
    (fun i => match players[i]? with
      | some member => decide (member.p.id = p.id)
      | none => false)

/-! ## Doors -/

/-- Blocking send `gm.chDoorCommand <- dc`, after the nil check of
`assureDoor`. -/
def sendDoorCommand (gm : V23Manager) (dc : DoorCommand) : Outcome :=
  match gm.chDoorCommand with
  | .nil => .panic "The door channel is nil." gm
  | .closed => .panic sendOnClosed gm
  | .ready => .done { gm with doorsSent := gm.doorsSent ++ [dc] }

/-- Bring one door to the commanded state: `gm.assureDoor`. -/
def assureDoor (gm : V23Manager) (dc : DoorCommand) : Outcome :=
  match dc with
  | ⟨.Open, .Left⟩ =>
    if gm.leftDoor = .Open then .done gm
    else sendDoorCommand { gm with leftDoor := .Open } dc
  | ⟨.Open, .Right⟩ =>
    if gm.rightDoor = .Open then .done gm
    else sendDoorCommand { gm with rightDoor := .Open } dc
  | ⟨.Closed, .Left⟩ =>
    if gm.leftDoor = .Closed then .done gm
    else sendDoorCommand { gm with leftDoor := .Closed } dc
  | ⟨.Closed, .Right⟩ =>
    if gm.rightDoor = .Closed then .done gm
    else sendDoorCommand { gm with rightDoor := .Closed } dc

/-- Recompute both doors from the roster: `gm.checkDoors`. -/
def checkDoors (gm : V23Manager) : Outcome :=
  match gm.players with
  | [] =>
    (assureDoor gm ⟨.Closed, .Left⟩).andThen
      (fun g => assureDoor g ⟨.Closed, .Right⟩)
  | first :: rest =>
    match gm.myself with
    | none => .panic nilDeref gm
    | some me =>
      if me.id < first.p.id then
        (assureDoor gm ⟨.Closed, .Left⟩).andThen
          (fun g => assureDoor g ⟨.Open, .Right⟩)
      else if ((first :: rest).getLast (List.cons_ne_nil first rest)).p.id < me.id then
        (assureDoor gm ⟨.Open, .Left⟩).andThen
          (fun g => assureDoor g ⟨.Closed, .Right⟩)
      else
        (assureDoor gm ⟨.Open, .Left⟩).andThen
          (fun g => assureDoor g ⟨.Open, .Right⟩)

/-! ## Membership -/

/-- Insert a player, keeping the list sorted: `gm.recognizeOther`.  The
three statements `append(players, nil)`, `copy(players[k+1:], players[k:])`,
`players[k] = vp` shift the entries from index `k` one place right and store
the new entry at `k`. -/
def recognizeOther (gm : V23Manager) (p : Player) : Outcome :=
  let vp : vPlayer := ⟨p, GameServiceClient (serverName gm.rootName p.id)⟩
  let k := findInsertion gm.players p
  let gm1 := { gm with players := gm.players.take k ++ vp :: gm.players.drop k }
  if gm1.isRunning then checkDoors gm1 else .done gm1

/-- Remove the first entry with the id of `p`, if any, then recompute the
doors: `gm.forgetOther`. -/
def forgetOther (gm : V23Manager) (p : Player) : Outcome :=
  let i := findPlayerIndex gm.players p
  let gm1 :=
    if i > -1 then
      { gm with players := gm.players.take i.toNat ++ gm.players.drop (i.toNat + 1) }
    else gm
  checkDoors gm1

/-! ## Ball hand-off -/

/-- Conversion `int32(n)` of a Go `int`: reduction into the 32-bit signed
range. -/
def toInt32 (n : Int) : Int := (n + 2 ^ 31) % 2 ^ 32 - 2 ^ 31

/-- Wire form of a ball: `serializeBall`. -/
def serializeBall (b : Ball) : WireBall :=
  ⟨⟨toInt32 b.owner.id⟩, b.pos.X, b.pos.Y, b.vel.X, b.vel.Y⟩

/-- Panic message of `throwBall` when there is no player on the left. -/
def nobodyOnLeft : String := "Nobody on left!  Send back to table."

/-- Panic message of `throwBall` when there is no player on the right. -/
def nobodyOnRight : String := "Nobody on right!  Send back to table."

/-- Panic message of `sendBallRpc` when the `Accept` call fails. -/
def ballThrowFailed : String := "Ball throw %v failed; err=%v"

/-- Call `Accept` on the stub of `vp`: `gm.sendBallRpc`.  Whether the remote
call fails is decided by the network and given as `acceptErr`. -/
def sendBallRpc (gm : V23Manager) (bc : BallCommand) (vp : vPlayer)
    (acceptErr : Bool) : Outcome :=
  let wb := serializeBall bc.B
  let gm1 := { gm with rpcs := gm.rpcs ++ [Rpc.Accept vp wb] }
  if acceptErr then .panic ballThrowFailed gm1 else .done gm1

/-- Evaluation of `gm.findInsertion(gm.myself)`: the loop calls `p.Id()` once
per member it visits, so a nil `myself` is dereferenced exactly when the
roster is not empty. -/
def selfInsertion (gm : V23Manager) : Option Nat :=
  match gm.myself with
  | some me => some (findInsertion gm.players me)
  | none =>
    match gm.players with
    | [] => some 0
    | _ :: _ => none

/-- Throw a ball left or right: `gm.throwBall`. -/
def throwBall (gm : V23Manager) (bc : BallCommand) (acceptErr : Bool) : Outcome :=
  match selfInsertion gm with
  | none => .panic nilDeref gm
  | some k =>
    if bc.D = .Left then
      let k1 : Int := (k : Int) - 1
      if k1 ≥ 0 then
        match gm.players[k1.toNat]? with
        | some vp => sendBallRpc gm bc vp acceptErr
        | none => .panic indexOutOfRange gm
      else .panic nobodyOnLeft gm
    else
      if (k : Int) ≤ (gm.players.length : Int) - 1 then
        match gm.players[k]? with
        | some vp => sendBallRpc gm bc vp acceptErr
        | none => .panic indexOutOfRange gm
      else .panic nobodyOnRight gm

/-! ## Shutdown and the event loop -/

/-- Ask every roster member to forget this player:
`gm.sayGoodbyeToEveryone`.  A failed call is logged and the loop goes on, so
the result does not depend on which calls fail. -/
def sayGoodbyeToEveryone (gm : V23Manager) : Outcome :=
  match gm.myself with
  | none => .panic nilDeref gm
  | some me =>
    let wp : WirePlayer := ⟨toInt32 me.id⟩
    .done { gm with rpcs := gm.rpcs ++ gm.players.map (fun vp => Rpc.Forget vp wp) }

/-- Drain request: `gm.noNewBallsOrPeople`.  `relay.StopAcceptingData` acts
on the relay only. -/
def noNewBallsOrPeople (gm : V23Manager) : Outcome :=
  sayGoodbyeToEveryone gm

/-- Shut down: `gm.stop`, which closes the door channel. -/
def stop (gm : V23Manager) : Outcome :=
  match gm.chDoorCommand with
  | .nil => .panic "close of nil channel" gm
  | .closed => .panic "close of closed channel" gm
  | .ready => .done { gm with chDoorCommand := .closed }

/-- Event taken by one round of the `select` in `Run`. -/
inductive Event where
  | stop
  | noNewBallsOrPeople
  | ballCommand (bc : BallCommand) (acceptErr : Bool)
  | recognize (p : Player)
  | forget (p : Player)
  deriving DecidableEq, Repr

/-- The `for { select { ... } }` of `Run` over the events in the order they
arrive: a stop request ends the loop, a panic ends the program. -/
def runLoop (gm : V23Manager) : List Event → Outcome
  | [] => .done gm
  | .stop :: _ => stop gm
  | .noNewBallsOrPeople :: rest =>
    match noNewBallsOrPeople gm with
    | .done g => runLoop g rest
    | .panic msg g => .panic msg g
  | .ballCommand bc acceptErr :: rest =>
    match throwBall gm bc acceptErr with
    | .done g => runLoop g rest
    | .panic msg g => .panic msg g
  | .recognize p :: rest =>
    match recognizeOther gm p with
    | .done g => runLoop g rest
    | .panic msg g => .panic msg g
  | .forget p :: rest =>
    match forgetOther gm p with
    | .done g => runLoop g rest
    | .panic msg g => .panic msg g

/-- Entry `gm.Run`: one door check, then the event loop. -/
def Run (gm : V23Manager) (events : List Event) : Outcome :=
  match checkDoors gm with
  | .done g => runLoop g events
  | .panic msg g => .panic msg g

/-- Constructor `NewV23Manager`. -/
def NewV23Manager (rootName : String) : V23Manager :=
  { isRunning := false
    isGameMaster := false
    leftDoor := .Closed
    rightDoor := .Closed
    rootName := rootName
    myself := none
    players := []
    initialPlayerNumbers := []
    chDoorCommand := .ready
    doorsSent := []
    rpcs := [] }

/-- A membership operation: `Recognize` or `Forget` of a player. -/
inductive MemberOp where
  | recognize (p : Player)
  | forget (p : Player)
  deriving DecidableEq, Repr

/-- Carry out one membership operation. -/
def applyOp (gm : V23Manager) : MemberOp → Outcome
  | .recognize p => recognizeOther gm p
  | .forget p => forgetOther gm p

/-- Carry out a sequence of membership operations, up to the first panic. -/
def applyOps (gm : V23Manager) : List MemberOp → Outcome
  | [] => .done gm
  | op :: rest =>
    match applyOp gm op with
    | .done g => applyOps g rest
    | .panic msg g => .panic msg g

/-! ## Specification vocabulary -/

/-- Ids of a roster, in roster order. -/
def ids (ps : List vPlayer) : List Int := ps.map (fun m => m.p.id)

/-- Door rule of section 4.3, following the words of the specification: the
pair `(left, right)` from the own id and the roster ids, by comparison with
the minimum and the maximum of the ids. -/
def doorRule (self : Int) (roster : List Int) : DoorState × DoorState :=
  match roster with
  | [] => (.Closed, .Closed)
  | a :: rest =>
    if self < rest.foldl min a then (.Closed, .Open)
    else if rest.foldl max a < self then (.Open, .Closed)
    else (.Open, .Open)

/-- State of the door on one side. -/
def doorOn (gm : V23Manager) : Direction → DoorState
  | .Left => gm.leftDoor
  | .Right => gm.rightDoor

/-- The manager with the door on one side set to a state and nothing else
changed. -/
def setDoor (gm : V23Manager) (side : Direction) (s : DoorState) : V23Manager :=
  match side with
  | .Left => { gm with leftDoor := s }
  | .Right => { gm with rightDoor := s }

/-- Every `Recognize` of the sequence is for an id that is not in the roster
at the moment it is applied. -/
def freshRecognizes (gm : V23Manager) : List MemberOp → Bool
  | [] => true
  | op :: rest =>
    (match op with
      | .recognize p => decide (p.id ∉ ids gm.players)
      | .forget _ => true) &&
    (match applyOp gm op with
      | .done g => freshRecognizes g rest
      | .panic _ _ => true)

/-- A manager after `IsReadyToRun` and `RunPrep`: own id `me`, the roster made
of the given ids in the given order, the doors as given. -/
def sample (me : Int) (roster : List Int) (l r : DoorState) : V23Manager :=
  { NewV23Manager "croupier" with
    isRunning := true
    myself := some ⟨me⟩
    players := roster.map (fun n => ⟨⟨n⟩, GameServiceClient (serverName "croupier" n)⟩)
    leftDoor := l
    rightDoor := r }

/-- Both doors brought to the states `l` and `r`, the left one first: the
shape shared by the four branches of `checkDoors`. -/
def assureBoth (gm : V23Manager) (l r : DoorState) : Outcome :=
  (assureDoor gm ⟨l, .Left⟩).andThen (fun g => assureDoor g ⟨r, .Right⟩)

/-- Door states chosen by the branches of `checkDoors`, which compare the own
id with the first and the last roster entry. -/
def doorTargets (me : Int) : List vPlayer → DoorState × DoorState
  | [] => (.Closed, .Closed)
  | first :: rest =>
    if me < first.p.id then (.Closed, .Open)
    else if ((first :: rest).getLast (List.cons_ne_nil first rest)).p.id < me then
      (.Open, .Closed)
    else (.Open, .Open)

/-- Notifications sent when the doors go from `(l0, r0)` to `(l, r)`. -/
def doorDelta (l0 r0 l r : DoorState) : List DoorCommand :=
  (if l0 = l then [] else [⟨l, .Left⟩]) ++ (if r0 = r then [] else [⟨r, .Right⟩])

/-- Insertion of an entry before the first member with a greater id. -/
def insertSorted (vp : vPlayer) : List vPlayer → List vPlayer
  | [] => [vp]
  | m :: rest =>
    if vp.p.id < m.p.id then vp :: m :: rest else m :: insertSorted vp rest

/-- Removal of the first entry with the id `x`. -/
def eraseFirst (x : Int) : List vPlayer → List vPlayer
  | [] => []
  | m :: rest => if m.p.id = x then rest else m :: eraseFirst x rest

/-- Roster entry that `recognizeOther` builds for the player `p`. -/
def entryFor (rootName : String) (p : Player) : vPlayer :=
  ⟨p, GameServiceClient (serverName rootName p.id)⟩

/-! ## Discovery and start-up -/

/-- Conversion of a result to the Go type `int`, taken as 64 bits wide:
reduction into the signed 64-bit range. -/
def wrapInt (n : Int) : Int := (n + 2 ^ 63) % 2 ^ 64 - 2 ^ 63

/-- A value received from the channel that `ns.Glob` returns: a
`*naming.GlobReplyEntry` with the name it carries, or a reply of another
type. -/
inductive GlobReply where
  | entry (name : String)
  | other
  deriving DecidableEq, Repr

/-- Library call `strconv.ParseInt(s, 10, 32)`, by its documentation: an
optional sign, then one or more decimal digits, the value within the signed
32-bit range; `none` stands for a returned error. -/
def parseInt32 (s : String) : Option Int :=
  let digitsOf : List Char → List Char := fun cs =>
    match cs with
    | [] => []
    | c :: rest => if c = '+' ∨ c = '-' then rest else c :: rest
  let negative : Bool :=
    match s.toList with
    | [] => false
    | c :: _ => decide (c = '-')
  let digits := digitsOf s.toList
  if digits.isEmpty || !digits.all Char.isDigit then none
  else
    let n : Int := digits.foldl (fun acc d => acc * 10 + ((d.toNat - 48 : Nat) : Int)) 0
    let v : Int := if negative then -n else n
    if v < -(2 ^ 31) ∨ 2 ^ 31 - 1 < v then none else some v

/-- Message of the Go runtime for a slice bound outside a string. -/
def sliceOutOfRange : String := "slice bounds out of range"

/-- Slice `s[n:]` of a Go string, `n` counting bytes; `none` when `n` is
beyond the end.  When `n` falls inside a character the Go slice starts with
bytes that are no digit and no sign; the text taken here is then empty, and
`parseInt32` rejects both. -/
def sliceFrom (s : String) (n : Nat) : Option String :=
  if s.utf8ByteSize < n then none else some (s.extract ⟨n⟩ s.endPos)

/-- Loop `for res := range c` of `playerNumbers` over the replies, `list`
being the ids found so far. -/
def playerNumbersLoop (rootName : String) : List GlobReply → List Int → Except String (List Int)
  | [], list => .ok list
  | .other :: rest, list => playerNumbersLoop rootName rest list
  | .entry name :: rest, list =>
    if name ≠ "" then
      match sliceFrom name rootName.utf8ByteSize with
      | none => .error sliceOutOfRange
      | some putativeNumber =>
        match parseInt32 putativeNumber with
        | none => playerNumbersLoop rootName rest list
        | some n => playerNumbersLoop rootName rest (list ++ [n])
    else playerNumbersLoop rootName rest list

/-- Ids of the players found in the directory: `gm.playerNumbers`.  The
replies of `ns.Glob` are given as `glob`, `none` when `ns.Glob` returns an
error. -/
def playerNumbers (rootName : String) (glob : Option (List GlobReply)) :
    Except String (List Int) :=
  match glob with
  | none => .ok []
  | some replies => playerNumbersLoop rootName replies []

/-- Library call `sort.Ints`, by its documentation: the same numbers in
increasing order. -/
def sortInts (l : List Int) : List Int := l.insertionSort (· ≤ ·)

/-- What `IsReadyToRun` meets outside the manager: the constant
`config.FailFast`, the result of `gotNetwork()`, whether `v23.Init` gives a
nil shutdown function, the replies of `ns.Glob`, and whether `s.Serve` fails. -/
structure Startup where
  failFast : Bool
  gotNetwork : Bool
  shutdownNil : Bool
  glob : Option (List GlobReply)
  serveErr : Bool
  deriving DecidableEq, Repr

/-- Result of `IsReadyToRun`: the boolean it returns, or a panic; either way
with the manager as the call left it. -/
inductive ReadyOutcome where
  | returned (ready : Bool) (gm : V23Manager)
  | panic (msg : String) (gm : V23Manager)
  deriving DecidableEq, Repr

/-- Find the other players, choose the own id and start serving:
`gm.IsReadyToRun`. -/
def IsReadyToRun (gm : V23Manager) (isGameMaster : Bool) (env : Startup) : ReadyOutcome :=
  if env.failFast && !env.gotNetwork then .returned false gm
  else
    let gm1 := { gm with isGameMaster := isGameMaster }
    if env.shutdownNil then .panic "shutdown nil" gm1
    else
      match playerNumbers gm1.rootName env.glob with
      | .error msg => .panic msg gm1
      | .ok found =>
        let gm2 := { gm1 with initialPlayerNumbers := sortInts found }
        let myId : Int :=
          match gm2.initialPlayerNumbers.getLast? with
          | some last => wrapInt (last + 1)
          | none => 1
        let myId : Int := if gm2.isGameMaster then 999 else myId
        let gm3 := { gm2 with myself := some ⟨myId⟩ }
        if gm3.isGameMaster then .returned true gm3
        else if env.serveErr then .panic "Error serving relay: " gm3
        else .returned true gm3

/-- Panic message of `sayHelloToEveryone` when a `Recognize` call fails. -/
def recognizeFailed : String := "Recognize failed: "

/-- Panic message of `RunPrep` for a game master given a ball channel. -/
def masterWithBalls : String := "game master should not have chBc"

/-- Loop of `sayHelloToEveryone` over the roster entries from position `i`
on.  Whether the call at position `i` fails is decided by the network and
given as `helloErr i`. -/
def sayHelloLoop (wp : WirePlayer) (helloErr : Nat → Bool) :
    List vPlayer → Nat → V23Manager → Outcome
  | [], _, gm => .done gm
  | vp :: rest, i, gm =>
    let gm1 := { gm with rpcs := gm.rpcs ++ [Rpc.Recognize vp wp] }
    if helloErr i then .panic recognizeFailed gm1
    else sayHelloLoop wp helloErr rest (i + 1) gm1

/-- Ask every roster member to recognize this player:
`gm.sayHelloToEveryone`. -/
def sayHelloToEveryone (gm : V23Manager) (helloErr : Nat → Bool) : Outcome :=
  match gm.myself with
  | none => .panic nilDeref gm
  | some me => sayHelloLoop ⟨toInt32 me.id⟩ helloErr gm.players 0 gm

/-- Loop `for _, id := range gm.initialPlayerNumbers` of `RunPrep`. -/
def replay (gm : V23Manager) : List Int → Outcome
  | [] => .done gm
  | id :: rest =>
    match recognizeOther gm ⟨id⟩ with
    | .done g => replay g rest
    | .panic msg g => .panic msg g

/-- Last preparation before the loop: `gm.RunPrep`.  Of the channel `chBc`
only whether it is nil matters to the manager. -/
def RunPrep (gm : V23Manager) (chBc : Chan) (helloErr : Nat → Bool) : Outcome :=
  (replay gm gm.initialPlayerNumbers).andThen (fun g1 =>
    (if g1.isGameMaster then
      (if chBc ≠ .nil then Outcome.panic masterWithBalls g1 else Outcome.done g1)
    else sayHelloToEveryone g1 helloErr).andThen (fun g2 =>
      .done { g2 with isRunning := true }))

/-! ## The older manager of `game/manager.go` -/

/-- Constant `rootName` of the package `game`. -/
def gameRootName : String := "croupier/player"

/-- Function `serverName` of the package `game`. -/
def gameServerName (n : Int) : String := gameRootName ++ fmt04d n

/-- Modelled from the spec: stub constructor `ifc.GameBuddyClient`, declared
outside the sources at hand; like the client stubs of section 6 the stub holds
the name it calls. -/
def GameBuddyClient (name : String) : ClientStub := ⟨name⟩

/-- Manager `GameManager`, with the ghost field `served`: the names passed to
`s.Serve`, in program order.  The fields `ctx`, `originX` and `originY` take
no part in the start-up. -/
structure GameManager where
  myNumber : Int
  master : Option ClientStub
  chatty : Bool
  served : List String
  deriving DecidableEq, Repr

/-- Result of a call on the `GameManager`. -/
inductive GameOutcome where
  | done (gm : GameManager)
  | panic (msg : String) (gm : GameManager)
  deriving DecidableEq, Repr

/-- Manager carried by a result. -/
def GameOutcome.state : GameOutcome → GameManager
  | .done gm => gm
  | .panic _ gm => gm

/-- Loop of `playerCount` over the replies, `count` being the count so far. -/
def playerCountLoop : List GlobReply → Int → Int
  | [], count => count
  | .other :: rest, count => playerCountLoop rest count
  | .entry name :: rest, count =>
    if name ≠ "" then playerCountLoop rest (wrapInt (count + 1))
    else playerCountLoop rest count

/-- Count of the services found in the directory: `gm.playerCount`. -/
def playerCount (glob : Option (List GlobReply)) : Int :=
  match glob with
  | none => 0
  | some replies => playerCountLoop replies 0

/-- Register under the own number and begin serving: `gm.registerService`. -/
def registerService (gm : GameManager) (serveErr : Bool) : GameOutcome :=
  let myName := gameServerName gm.myNumber
  let gm1 := { gm with served := gm.served ++ [myName] }
  if serveErr then .panic "Error serving service: " gm1 else .done gm1

/-- Start-up of the older manager: `gm.initialize` (the name is reserved in Lean). -/
def initializeManager (gm : GameManager) (glob : Option (List GlobReply)) (serveErr : Bool) :
    GameOutcome :=
  let gm1 := { gm with myNumber := playerCount glob }
  match registerService gm1 serveErr with
  | .panic msg g => .panic msg g
  | .done g => .done { g with master := some (GameBuddyClient (gameServerName 0)) }

/-- Constructor `NewGameManager` before its call of `initialize`. -/
def NewGameManager : GameManager :=
  { myNumber := 0, master := none, chatty := true, served := [] }

/-! ## Specification vocabulary for discovery and start-up -/

/-- Id that a reply contributes, following the words of the specification:
the numeric suffix after the root name, when the name is not empty and the
suffix parses as a base-10 32-bit integer. -/
def idOfReply (rootName : String) : GlobReply → Option Int
  | .other => none
  | .entry name =>
    if name = "" then none
    else (sliceFrom name rootName.utf8ByteSize).bind parseInt32

/-- The reply carries a name that is empty or at least as long as the root
name, as every name matching the pattern `rootName*` is. -/
def longEnough (rootName : String) : GlobReply → Bool
  | .other => true
  | .entry name => decide (name = "") || decide (rootName.utf8ByteSize ≤ name.utf8ByteSize)

/-- Own id that `IsReadyToRun` computes for a player that is not master from
the ids found: one more than the last of the sorted ids, or 1. -/
def chosenId (found : List Int) : Int :=
  match (sortInts found).getLast? with
  | some last => wrapInt (last + 1)
  | none => 1

/-- A directory in which the players with the given ids are registered
under their server names. -/
def directoryOf (rootName : String) (registered : List Int) : List GlobReply :=
  registered.map (fun n => GlobReply.entry (serverName rootName n))

/-- A start-up in which nothing outside the manager fails. -/
def calm (replies : List GlobReply) : Startup :=
  { failFast := false, gotNetwork := true, shutdownNil := false,
    glob := some replies, serveErr := false }

/-- Roster after the insertion of players with the given ids, one after the
other. -/
def insertAll (rootName : String) : List vPlayer → List Int → List vPlayer
  | ps, [] => ps
  | ps, id :: rest => insertAll rootName (insertSorted (entryFor rootName ⟨id⟩) ps) rest

/-- A manager as `IsReadyToRun` leaves it: not running yet, own id `me`, the
ids found in the directory in `initialPlayerNumbers`, an empty roster and
closed doors. -/
def afterReady (me : Int) (found : List Int) (master : Bool) : V23Manager :=
  { NewV23Manager "croupier" with
    isGameMaster := master
    myself := some ⟨me⟩
    initialPlayerNumbers := found }

/-! ## Lemmas on the doors -/

theorem checkDoors_eq_assureBoth (gm : V23Manager) (me : Player)
    (hme : gm.myself = some me) :
    checkDoors gm =
      assureBoth gm (doorTargets me.id gm.players).1 (doorTargets me.id gm.players).2 := by
  unfold checkDoors assureBoth doorTargets
  cases hp : gm.players with
  | nil => simp
  | cons first rest =>
    simp only [hme]
    split_ifs <;> rfl

theorem checkDoors_nil (gm : V23Manager) (hp : gm.players = []) :
    checkDoors gm = assureBoth gm .Closed .Closed := by
  unfold checkDoors assureBoth
  simp [hp]

theorem assureBoth_ready (gm : V23Manager) (l r : DoorState)
    (hc : gm.chDoorCommand = .ready) :
    assureBoth gm l r =
      .done { gm with
        leftDoor := l
        rightDoor := r
        doorsSent := gm.doorsSent ++ doorDelta gm.leftDoor gm.rightDoor l r } := by
  obtain ⟨run, master, l0, r0, root, me, ps, init, ch, sent, rpcs⟩ := gm
  simp only at hc
  subst hc
  cases l <;> cases r <;> cases l0 <;> cases r0 <;>
    simp [assureBoth, assureDoor, sendDoorCommand, Outcome.andThen, doorDelta]

theorem assureBoth_done (gm g : V23Manager) (l r : DoorState)
    (h : assureBoth gm l r = .done g) :
    g = { gm with
        leftDoor := l
        rightDoor := r
        doorsSent := gm.doorsSent ++ doorDelta gm.leftDoor gm.rightDoor l r } := by
  obtain ⟨run, master, l0, r0, root, me, ps, init, ch, sent, rpcs⟩ := gm
  revert h
  cases ch <;> cases l <;> cases r <;> cases l0 <;> cases r0 <;>
    simp [assureBoth, assureDoor, sendDoorCommand, Outcome.andThen, doorDelta] <;>
    intro h <;> exact h.symm

theorem assureBoth_same (gm : V23Manager) (l r : DoorState)
    (hl : gm.leftDoor = l) (hr : gm.rightDoor = r) :
    assureBoth gm l r = .done gm := by
  subst hl hr
  obtain ⟨run, master, l0, r0, root, me, ps, init, ch, sent, rpcs⟩ := gm
  cases l0 <;> cases r0 <;>
    simp [assureBoth, assureDoor, Outcome.andThen]

theorem assureBoth_frame (gm : V23Manager) (l r : DoorState) :
    (assureBoth gm l r).state.players = gm.players ∧
    (assureBoth gm l r).state.myself = gm.myself ∧
    (assureBoth gm l r).state.isRunning = gm.isRunning ∧
    (assureBoth gm l r).state.rpcs = gm.rpcs ∧
    (assureBoth gm l r).state.chDoorCommand = gm.chDoorCommand ∧
    (assureBoth gm l r).state.rootName = gm.rootName := by
  obtain ⟨run, master, l0, r0, root, me, ps, init, ch, sent, rpcs⟩ := gm
  cases ch <;> cases l <;> cases r <;> cases l0 <;> cases r0 <;>
    simp [assureBoth, assureDoor, sendDoorCommand, Outcome.andThen, Outcome.state]

theorem checkDoors_frame (gm : V23Manager) :
    (checkDoors gm).state.players = gm.players ∧
    (checkDoors gm).state.myself = gm.myself ∧
    (checkDoors gm).state.isRunning = gm.isRunning ∧
    (checkDoors gm).state.rpcs = gm.rpcs ∧
    (checkDoors gm).state.chDoorCommand = gm.chDoorCommand ∧
    (checkDoors gm).state.rootName = gm.rootName := by
  cases hme : gm.myself with
  | some me =>
    rw [checkDoors_eq_assureBoth gm me hme, ← hme]
    exact assureBoth_frame gm _ _
  | none =>
    cases hp : gm.players with
    | nil =>
      rw [checkDoors_nil gm hp, ← hme, ← hp]
      exact assureBoth_frame gm _ _
    | cons first rest =>
      simp [checkDoors, hp, hme, Outcome.state]

theorem foldl_min_of_le (a : Int) (l : List Int) (h : ∀ b ∈ l, a ≤ b) :
    l.foldl min a = a := by
  induction l with
  | nil => rfl
  | cons b bs ih =>
    have hab : a ≤ b := h b (List.mem_cons_self b bs)
    simp only [List.foldl_cons, min_eq_left hab]
    exact ih (fun c hc => h c (List.mem_cons_of_mem b hc))

theorem foldl_max_getLast (first : vPlayer) (rest : List vPlayer)
    (h : List.Sorted (· ≤ ·) (ids (first :: rest))) :
    (ids rest).foldl max first.p.id =
      ((first :: rest).getLast (List.cons_ne_nil first rest)).p.id := by
  induction rest generalizing first with
  | nil => rfl
  | cons b bs ih =>
    have hs : List.Sorted (· ≤ ·) (ids (b :: bs)) := by
      simp only [ids, List.map_cons, List.sorted_cons] at h ⊢
      exact h.2
    have hab : first.p.id ≤ b.p.id := by
      simp only [ids, List.map_cons, List.sorted_cons, List.mem_cons] at h
      exact h.1 _ (Or.inl rfl)
    simp only [ids, List.map_cons, List.foldl_cons, max_eq_right hab]
    rw [List.getLast_cons (List.cons_ne_nil b bs)]
    exact ih b hs

theorem doorTargets_eq_doorRule (me : Int) (ps : List vPlayer)
    (h : List.Sorted (· ≤ ·) (ids ps)) :
    doorTargets me ps = doorRule me (ids ps) := by
  cases ps with
  | nil => rfl
  | cons first rest =>
    have hmin : (ids rest).foldl min first.p.id = first.p.id := by
      apply foldl_min_of_le
      simp only [ids, List.map_cons, List.sorted_cons] at h
      exact h.1
    have hmax := foldl_max_getLast first rest h
    simp only [doorTargets, doorRule, ids, List.map_cons]
    simp only [ids] at hmin hmax
    rw [hmin, hmax]

/-! ## Lemmas on the roster -/

theorem take_findInsertion (ps : List vPlayer) (vp : vPlayer) :
    ps.take (findInsertion ps vp.p) ++ vp :: ps.drop (findInsertion ps vp.p) =
      insertSorted vp ps := by
  induction ps with
  | nil => rfl
  | cons m rest ih =>
    by_cases hlt : vp.p.id < m.p.id
    · simp [findInsertion, insertSorted, hlt]
    · simp [findInsertion, insertSorted, hlt, ih]

theorem findInsertion_le_length (ps : List vPlayer) (p : Player) :
    findInsertion ps p ≤ ps.length := by
  induction ps with
  | nil => simp [findInsertion]
  | cons m rest ih =>
    by_cases hlt : p.id < m.p.id
    · simp [findInsertion, hlt]
    · simp [findInsertion, hlt, ih]

theorem findIndexFrom_succ (predicate : Nat → Bool) (i n : Nat) :
    findIndexFrom predicate (i + 1) n =
      if findIndexFrom (fun j => predicate (j + 1)) i n = -1 then -1
      else findIndexFrom (fun j => predicate (j + 1)) i n + 1 := by
  induction n generalizing i with
  | zero => simp [findIndexFrom]
  | succ n ih =>
    by_cases hp : predicate (i + 1) = true
    · simp only [findIndexFrom, hp, if_true]
      have : ((i : Int) = -1) = False := by
        apply eq_false
        omega
      simp only [this, if_false]
      push_cast
      rfl
    · simp only [findIndexFrom, hp]
      exact ih (i + 1)

theorem findIndexFrom_range (predicate : Nat → Bool) (i n : Nat) :
    findIndexFrom predicate i n = -1 ∨
      ((i : Int) ≤ findIndexFrom predicate i n ∧
        findIndexFrom predicate i n < (i : Int) + n) := by
  induction n generalizing i with
  | zero => exact Or.inl rfl
  | succ n ih =>
    by_cases hp : predicate i = true
    · right
      simp only [findIndexFrom, hp, if_true]
      constructor <;> push_cast <;> omega
    · simp only [findIndexFrom, hp]
      rcases ih (i + 1) with h | h
      · exact Or.inl h
      · right
        push_cast at h ⊢
        omega

theorem findPlayerIndex_cons (m : vPlayer) (rest : List vPlayer) (p : Player) :
    findPlayerIndex (m :: rest) p =
      if m.p.id = p.id then 0
      else if findPlayerIndex rest p = -1 then -1
      else findPlayerIndex rest p + 1 := by
  unfold findPlayerIndex findIndex
  by_cases hm : m.p.id = p.id
  · simp [findIndexFrom, hm]
  · simp only [List.length_cons, findIndexFrom, List.getElem?_cons_zero, hm, decide_False,
      if_false]
    rw [Nat.zero_add, ← Nat.zero_add 1, findIndexFrom_succ]
    simp only [List.getElem?_cons_succ]
    rfl

/-- The list left by the removal in `forgetOther`. -/
theorem forget_list_eq_eraseFirst (ps : List vPlayer) (p : Player) :
    (if findPlayerIndex ps p > -1 then
        ps.take (findPlayerIndex ps p).toNat ++ ps.drop ((findPlayerIndex ps p).toNat + 1)
      else ps) = eraseFirst p.id ps := by
  induction ps with
  | nil => simp [findPlayerIndex, findIndex, findIndexFrom, eraseFirst]
  | cons m rest ih =>
    rw [findPlayerIndex_cons]
    by_cases hm : m.p.id = p.id
    · simp [hm, eraseFirst]
    · simp only [hm, if_false, eraseFirst]
      have hr := findIndexFrom_range
        (fun i => match rest[i]? with
          | some member => decide (member.p.id = p.id)
          | none => false) 0 rest.length
      change findPlayerIndex rest p = -1 ∨ _ at hr
      by_cases h1 : findPlayerIndex rest p = -1
      · simp only [h1, if_true] at ih ⊢
        simp only [gt_iff_lt, lt_self_iff_false, if_false] at ih ⊢
        rw [← ih]
      · have h0 : (0 : Int) ≤ findPlayerIndex rest p := by
          rcases hr with h | h
          · exact absurd h h1
          · exact_mod_cast h.1
        have hgt : findPlayerIndex rest p > -1 := by omega
        have hgt2 : findPlayerIndex rest p + 1 > -1 := by omega
        simp only [h1, if_false, hgt, hgt2, if_true] at ih ⊢
        have htn : (findPlayerIndex rest p + 1).toNat = (findPlayerIndex rest p).toNat + 1 := by
          omega
        rw [htn, List.take_succ_cons, List.drop_succ_cons, List.cons_append, ih]

theorem mem_ids_insertSorted (vp : vPlayer) (ps : List vPlayer) (b : Int) :
    b ∈ ids (insertSorted vp ps) ↔ b = vp.p.id ∨ b ∈ ids ps := by
  induction ps with
  | nil => simp [insertSorted, ids]
  | cons m rest ih =>
    by_cases hlt : vp.p.id < m.p.id
    · simp [insertSorted, hlt, ids]
    · simp only [insertSorted, hlt, if_false]
      simp only [ids, List.map_cons, List.mem_cons] at ih ⊢
      rw [ih]
      tauto

theorem sorted_le_insertSorted (vp : vPlayer) (ps : List vPlayer)
    (h : List.Sorted (· ≤ ·) (ids ps)) :
    List.Sorted (· ≤ ·) (ids (insertSorted vp ps)) := by
  induction ps with
  | nil => simp [insertSorted, ids]
  | cons m rest ih =>
    have hm : ∀ b ∈ ids rest, m.p.id ≤ b := by
      simp only [ids, List.map_cons, List.sorted_cons] at h
      exact h.1
    have hrest : List.Sorted (· ≤ ·) (ids rest) := by
      simp only [ids, List.map_cons, List.sorted_cons] at h
      exact h.2
    by_cases hlt : vp.p.id < m.p.id
    · simp only [insertSorted, hlt, if_true]
      change List.Sorted (· ≤ ·) (vp.p.id :: ids (m :: rest))
      refine List.sorted_cons.mpr ⟨?_, h⟩
      intro b hb
      change b ∈ m.p.id :: ids rest at hb
      rcases List.mem_cons.mp hb with hb | hb
      · omega
      · have := hm b hb
        omega
    · simp only [insertSorted, hlt, if_false]
      change List.Sorted (· ≤ ·) (m.p.id :: ids (insertSorted vp rest))
      refine List.sorted_cons.mpr ⟨?_, ih hrest⟩
      intro b hb
      rcases (mem_ids_insertSorted vp rest b).mp hb with hb | hb
      · omega
      · exact hm b hb

theorem sorted_lt_insertSorted (vp : vPlayer) (ps : List vPlayer)
    (h : List.Sorted (· < ·) (ids ps)) (hnew : vp.p.id ∉ ids ps) :
    List.Sorted (· < ·) (ids (insertSorted vp ps)) := by
  induction ps with
  | nil => simp [insertSorted, ids]
  | cons m rest ih =>
    have hm : ∀ b ∈ ids rest, m.p.id < b := by
      simp only [ids, List.map_cons, List.sorted_cons] at h
      exact h.1
    have hrest : List.Sorted (· < ·) (ids rest) := by
      simp only [ids, List.map_cons, List.sorted_cons] at h
      exact h.2
    have hne : vp.p.id ≠ m.p.id := by
      intro he
      apply hnew
      simp [ids, he]
    have hnew2 : vp.p.id ∉ ids rest := by
      intro hin
      apply hnew
      simp only [ids, List.map_cons, List.mem_cons]
      exact Or.inr hin
    by_cases hlt : vp.p.id < m.p.id
    · simp only [insertSorted, hlt, if_true]
      change List.Sorted (· < ·) (vp.p.id :: ids (m :: rest))
      refine List.sorted_cons.mpr ⟨?_, h⟩
      intro b hb
      change b ∈ m.p.id :: ids rest at hb
      rcases List.mem_cons.mp hb with hb | hb
      · omega
      · have := hm b hb
        omega
    · simp only [insertSorted, hlt, if_false]
      change List.Sorted (· < ·) (m.p.id :: ids (insertSorted vp rest))
      refine List.sorted_cons.mpr ⟨?_, ih hrest hnew2⟩
      intro b hb
      rcases (mem_ids_insertSorted vp rest b).mp hb with hb | hb
      · omega
      · exact hm b hb

theorem eraseFirst_sublist (x : Int) (ps : List vPlayer) :
    List.Sublist (eraseFirst x ps) ps := by
  induction ps with
  | nil => exact List.Sublist.slnil
  | cons m rest ih =>
    by_cases hm : m.p.id = x
    · simp only [eraseFirst, hm, if_true]
      exact List.sublist_cons_self m rest
    · simp only [eraseFirst, hm, if_false]
      exact List.Sublist.cons₂ m ih

theorem sorted_le_eraseFirst (x : Int) (ps : List vPlayer)
    (h : List.Sorted (· ≤ ·) (ids ps)) :
    List.Sorted (· ≤ ·) (ids (eraseFirst x ps)) :=
  List.Pairwise.sublist ((eraseFirst_sublist x ps).map _) h

theorem sorted_lt_eraseFirst (x : Int) (ps : List vPlayer)
    (h : List.Sorted (· < ·) (ids ps)) :
    List.Sorted (· < ·) (ids (eraseFirst x ps)) :=
  List.Pairwise.sublist ((eraseFirst_sublist x ps).map _) h

theorem ids_insertSorted_of_le (vp : vPlayer) (ps : List vPlayer)
    (h : ∀ b ∈ ids ps, vp.p.id ≤ b) :
    ids (insertSorted vp ps) = vp.p.id :: ids ps := by
  induction ps with
  | nil => rfl
  | cons m rest ih =>
    have hm : vp.p.id ≤ m.p.id := h _ (by simp [ids])
    have hrest : ∀ b ∈ ids rest, vp.p.id ≤ b := by
      intro b hb
      apply h
      simp only [ids, List.map_cons, List.mem_cons]
      exact Or.inr hb
    by_cases hlt : vp.p.id < m.p.id
    · simp [insertSorted, hlt, ids]
    · have he : m.p.id = vp.p.id := by omega
      simp only [insertSorted, hlt, if_false]
      change m.p.id :: ids (insertSorted vp rest) = vp.p.id :: m.p.id :: ids rest
      rw [ih hrest, he]

theorem ids_eraseFirst_insertSorted (vp : vPlayer) (ps : List vPlayer)
    (h : List.Sorted (· ≤ ·) (ids ps)) :
    ids (eraseFirst vp.p.id (insertSorted vp ps)) = ids ps := by
  induction ps with
  | nil => simp [insertSorted, eraseFirst, ids]
  | cons m rest ih =>
    have hm : ∀ b ∈ ids rest, m.p.id ≤ b := by
      simp only [ids, List.map_cons, List.sorted_cons] at h
      exact h.1
    have hrest : List.Sorted (· ≤ ·) (ids rest) := by
      simp only [ids, List.map_cons, List.sorted_cons] at h
      exact h.2
    by_cases hlt : vp.p.id < m.p.id
    · simp [insertSorted, hlt, eraseFirst]
    · simp only [insertSorted, hlt, if_false, eraseFirst]
      by_cases he : m.p.id = vp.p.id
      · simp only [he, if_true]
        rw [ids_insertSorted_of_le vp rest (fun b hb => he ▸ hm b hb)]
        simp [ids, he]
      · simp only [he, if_false]
        change m.p.id :: ids (eraseFirst vp.p.id (insertSorted vp rest)) = m.p.id :: ids rest
        rw [ih hrest]

/-! ## Lemmas on the membership operations -/

theorem recognizeOther_players (gm : V23Manager) (p : Player) :
    (recognizeOther gm p).state.players =
      insertSorted (entryFor gm.rootName p) gm.players := by
  have hk := take_findInsertion gm.players (entryFor gm.rootName p)
  change gm.players.take (findInsertion gm.players p) ++
    entryFor gm.rootName p :: gm.players.drop (findInsertion gm.players p) = _ at hk
  unfold recognizeOther
  by_cases hr : gm.isRunning = true
  · simp only [hr, if_true]
    rw [(checkDoors_frame _).1]
    exact hk
  · simp only [hr]
    exact hk

theorem forgetOther_eq (gm : V23Manager) (p : Player) :
    forgetOther gm p = checkDoors { gm with players := eraseFirst p.id gm.players } := by
  unfold forgetOther
  rw [← forget_list_eq_eraseFirst gm.players p]
  by_cases h : findPlayerIndex gm.players p > -1
  · simp only [h, if_true]
  · simp only [h, if_false]

theorem forgetOther_players (gm : V23Manager) (p : Player) :
    (forgetOther gm p).state.players = eraseFirst p.id gm.players := by
  rw [forgetOther_eq, (checkDoors_frame _).1]

theorem applyOp_players (gm : V23Manager) (op : MemberOp) :
    (applyOp gm op).state.players =
      match op with
      | .recognize p => insertSorted (entryFor gm.rootName p) gm.players
      | .forget p => eraseFirst p.id gm.players := by
  cases op with
  | recognize p => exact recognizeOther_players gm p
  | forget p => exact forgetOther_players gm p

theorem applyOp_sorted_le (gm : V23Manager) (op : MemberOp)
    (h : List.Sorted (· ≤ ·) (ids gm.players)) :
    List.Sorted (· ≤ ·) (ids (applyOp gm op).state.players) := by
  rw [applyOp_players]
  cases op with
  | recognize p => exact sorted_le_insertSorted _ _ h
  | forget p => exact sorted_le_eraseFirst _ _ h

theorem applyOps_sorted_le (gm : V23Manager) (ops : List MemberOp)
    (h : List.Sorted (· ≤ ·) (ids gm.players)) :
    List.Sorted (· ≤ ·) (ids (applyOps gm ops).state.players) := by
  induction ops generalizing gm with
  | nil => exact h
  | cons op rest ih =>
    have hstep := applyOp_sorted_le gm op h
    unfold applyOps
    cases hr : applyOp gm op with
    | done g =>
      rw [hr] at hstep
      exact ih g hstep
    | panic msg g =>
      rw [hr] at hstep
      exact hstep

theorem applyOps_sorted_lt (gm : V23Manager) (ops : List MemberOp)
    (h : List.Sorted (· < ·) (ids gm.players)) (hf : freshRecognizes gm ops = true) :
    List.Sorted (· < ·) (ids (applyOps gm ops).state.players) := by
  induction ops generalizing gm with
  | nil => exact h
  | cons op rest ih =>
    simp only [freshRecognizes, Bool.and_eq_true] at hf
    have hstep : List.Sorted (· < ·) (ids (applyOp gm op).state.players) := by
      rw [applyOp_players]
      cases op with
      | recognize p =>
        have hnew : p.id ∉ ids gm.players := by simpa using hf.1
        exact sorted_lt_insertSorted _ _ h hnew
      | forget p => exact sorted_lt_eraseFirst _ _ h
    unfold applyOps
    cases hr : applyOp gm op with
    | done g =>
      rw [hr] at hstep
      have hf2 := hf.2
      rw [hr] at hf2
      exact ih g hstep hf2
    | panic msg g =>
      rw [hr] at hstep
      exact hstep

theorem insertAt_facts {α : Type} (l : List α) (a : α) (k : Nat) (hk : k ≤ l.length) :
    (l.take k ++ a :: l.drop k)[k]? = some a ∧
    (l.take k ++ a :: l.drop k).eraseIdx k = l ∧
    (l.take k ++ a :: l.drop k).take k = l.take k ∧
    (l.take k ++ a :: l.drop k).drop (k + 1) = l.drop k := by
  induction l generalizing k with
  | nil =>
    have : k = 0 := by simpa using hk
    subst this
    simp
  | cons b bs ih =>
    cases k with
    | zero => simp
    | succ k =>
      have hk2 : k ≤ bs.length := by simpa using hk
      obtain ⟨h1, h2, h3, h4⟩ := ih k hk2
      simp [h1, h2, h3, h4]

theorem findInsertion_take_le (ps : List vPlayer) (p : Player) :
    ∀ m ∈ ps.take (findInsertion ps p), m.p.id ≤ p.id := by
  induction ps with
  | nil => simp [findInsertion]
  | cons a rest ih =>
    by_cases hlt : p.id < a.p.id
    · simp [findInsertion, hlt]
    · simp only [findInsertion, hlt, if_false, List.take_succ_cons, List.mem_cons]
      intro m hm
      rcases hm with hm | hm
      · subst hm
        omega
      · exact ih m hm

theorem findInsertion_drop_lt (ps : List vPlayer) (p : Player)
    (h : List.Sorted (· ≤ ·) (ids ps)) :
    ∀ m ∈ ps.drop (findInsertion ps p), p.id < m.p.id := by
  induction ps with
  | nil => simp [findInsertion]
  | cons a rest ih =>
    have ha : ∀ b ∈ ids rest, a.p.id ≤ b := by
      simp only [ids, List.map_cons, List.sorted_cons] at h
      exact h.1
    have hrest : List.Sorted (· ≤ ·) (ids rest) := by
      simp only [ids, List.map_cons, List.sorted_cons] at h
      exact h.2
    by_cases hlt : p.id < a.p.id
    · simp only [findInsertion, hlt, if_true, List.drop_zero, List.mem_cons]
      intro m hm
      rcases hm with hm | hm
      · subst hm
        exact hlt
      · have := ha m.p.id (List.mem_map_of_mem _ hm)
        omega
    · simp only [findInsertion, hlt, if_false, List.drop_succ_cons]
      exact ih hrest

theorem checkDoors_done (gm g : V23Manager) (me : Player) (hme : gm.myself = some me)
    (h : checkDoors gm = .done g) :
    g = { gm with
        leftDoor := (doorTargets me.id gm.players).1
        rightDoor := (doorTargets me.id gm.players).2
        doorsSent := gm.doorsSent ++ doorDelta gm.leftDoor gm.rightDoor
          (doorTargets me.id gm.players).1 (doorTargets me.id gm.players).2 } := by
  rw [checkDoors_eq_assureBoth gm me hme] at h
  exact assureBoth_done gm g _ _ h

theorem checkDoors_ready (gm : V23Manager) (me : Player) (hme : gm.myself = some me)
    (hc : gm.chDoorCommand = .ready) :
    checkDoors gm = .done { gm with
        leftDoor := (doorTargets me.id gm.players).1
        rightDoor := (doorTargets me.id gm.players).2
        doorsSent := gm.doorsSent ++ doorDelta gm.leftDoor gm.rightDoor
          (doorTargets me.id gm.players).1 (doorTargets me.id gm.players).2 } := by
  rw [checkDoors_eq_assureBoth gm me hme]
  exact assureBoth_ready gm _ _ hc

theorem checkDoors_in_step (gm : V23Manager) (me : Player) (hme : gm.myself = some me)
    (hd : (gm.leftDoor, gm.rightDoor) = doorTargets me.id gm.players) :
    checkDoors gm = .done gm := by
  rw [checkDoors_eq_assureBoth gm me hme]
  apply assureBoth_same
  · exact congrArg Prod.fst hd
  · exact congrArg Prod.snd hd

theorem sendBallRpc_state (gm : V23Manager) (bc : BallCommand) (vp : vPlayer)
    (acceptErr : Bool) :
    (sendBallRpc gm bc vp acceptErr).state =
      { gm with rpcs := gm.rpcs ++ [Rpc.Accept vp (serializeBall bc.B)] } ∧
    (sendBallRpc gm bc vp acceptErr).returned = !acceptErr := by
  cases acceptErr <;> simp [sendBallRpc, Outcome.state, Outcome.returned]

theorem sendBallRpc_match_frame (gm : V23Manager) (bc : BallCommand) (acceptErr : Bool)
    (o : Option vPlayer) :
    (match o with
      | some vp => sendBallRpc gm bc vp acceptErr
      | none => Outcome.panic indexOutOfRange gm).state =
      { gm with rpcs := (match o with
          | some vp => sendBallRpc gm bc vp acceptErr
          | none => Outcome.panic indexOutOfRange gm).state.rpcs } := by
  cases o with
  | none => rfl
  | some vp =>
    simp only
    rw [(sendBallRpc_state gm bc vp acceptErr).1]

theorem throwBall_frame (gm : V23Manager) (bc : BallCommand) (acceptErr : Bool) :
    (throwBall gm bc acceptErr).state =
      { gm with rpcs := (throwBall gm bc acceptErr).state.rpcs } := by
  unfold throwBall
  cases selfInsertion gm with
  | none => rfl
  | some k =>
    simp only
    split_ifs
    · exact sendBallRpc_match_frame gm bc acceptErr _
    · rfl
    · exact sendBallRpc_match_frame gm bc acceptErr _
    · rfl

/-- The loop invariant of `Run`: the manager is running, knows its own id,
the roster is sorted and the doors are the ones `checkDoors` chooses. -/
theorem loop_invariant (me : Player) (events : List Event) (gm g : V23Manager)
    (hrun : gm.isRunning = true) (hme : gm.myself = some me)
    (hs : List.Sorted (· ≤ ·) (ids gm.players))
    (hd : (gm.leftDoor, gm.rightDoor) = doorTargets me.id gm.players)
    (h : runLoop gm events = .done g) :
    g.myself = some me ∧ List.Sorted (· ≤ ·) (ids g.players) ∧
      (g.leftDoor, g.rightDoor) = doorTargets me.id g.players := by
  induction events generalizing gm with
  | nil =>
    simp only [runLoop, Outcome.done.injEq] at h
    subst h
    exact ⟨hme, hs, hd⟩
  | cons ev rest ih =>
    cases ev with
    | stop =>
      simp only [runLoop, stop] at h
      split at h
      · cases h
      · cases h
      · simp only [Outcome.done.injEq] at h
        subst h
        exact ⟨hme, hs, hd⟩
    | noNewBallsOrPeople =>
      simp only [runLoop, noNewBallsOrPeople, sayGoodbyeToEveryone, hme] at h
      refine ih _ ?_ ?_ ?_ ?_ h
      · exact hrun
      · rfl
      · exact hs
      · exact hd
    | ballCommand bc acceptErr =>
      simp only [runLoop] at h
      have hf := throwBall_frame gm bc acceptErr
      cases hr : throwBall gm bc acceptErr with
      | done g1 =>
        rw [hr] at h hf
        simp only [Outcome.state] at hf
        simp only at h
        have e1 : g1.isRunning = gm.isRunning := by rw [hf]
        have e2 : g1.myself = gm.myself := by rw [hf]
        have e3 : g1.players = gm.players := by rw [hf]
        have e4 : g1.leftDoor = gm.leftDoor := by rw [hf]
        have e5 : g1.rightDoor = gm.rightDoor := by rw [hf]
        exact ih g1 (e1 ▸ hrun) (e2 ▸ hme) (e3 ▸ hs) (by rw [e3, e4, e5]; exact hd) h
      | panic msg g1 =>
        rw [hr] at h
        cases h
    | recognize p =>
      simp only [runLoop] at h
      have hp := recognizeOther_players gm p
      cases hr : recognizeOther gm p with
      | done g1 =>
        rw [hr] at h hp
        simp only [Outcome.state] at hp
        simp only at h
        have hr2 := hr
        simp only [recognizeOther, hrun, if_true] at hr2
        have hg1 := checkDoors_done _ g1 me (by exact hme) hr2
        have e1 : g1.isRunning = true := by rw [hg1]
        have e2 : g1.myself = some me := by rw [hg1]; exact hme
        have hs1 : List.Sorted (· ≤ ·) (ids g1.players) := by
          rw [hp]
          exact sorted_le_insertSorted _ _ hs
        have hd1 : (g1.leftDoor, g1.rightDoor) = doorTargets me.id g1.players := by
          rw [hg1]
        exact ih g1 e1 e2 hs1 hd1 h
      | panic msg g1 =>
        rw [hr] at h
        cases h
    | forget p =>
      simp only [runLoop] at h
      have hp := forgetOther_players gm p
      cases hr : forgetOther gm p with
      | done g1 =>
        rw [hr] at h hp
        simp only [Outcome.state] at hp
        simp only at h
        have hr2 := hr
        rw [forgetOther_eq] at hr2
        have hg1 := checkDoors_done _ g1 me (by exact hme) hr2
        have e1 : g1.isRunning = true := by rw [hg1]; exact hrun
        have e2 : g1.myself = some me := by rw [hg1]; exact hme
        have hs1 : List.Sorted (· ≤ ·) (ids g1.players) := by
          rw [hp]
          exact sorted_le_eraseFirst _ _ hs
        have hd1 : (g1.leftDoor, g1.rightDoor) = doorTargets me.id g1.players := by
          rw [hg1]
        exact ih g1 e1 e2 hs1 hd1 h
      | panic msg g1 =>
        rw [hr] at h
        cases h

/-! ## Lemmas on the ball router -/

theorem selfInsertion_some (gm : V23Manager) (me : Player) (hme : gm.myself = some me) :
    selfInsertion gm = some (findInsertion gm.players me) := by
  simp [selfInsertion, hme]

theorem throwBall_left_target (gm : V23Manager) (me : Player) (bc : BallCommand)
    (acceptErr : Bool) (hme : gm.myself = some me) (hL : bc.D = .Left)
    (hk : 1 ≤ findInsertion gm.players me) :
    ∃ vp, gm.players[findInsertion gm.players me - 1]? = some vp ∧
      throwBall gm bc acceptErr = sendBallRpc gm bc vp acceptErr := by
  have hle := findInsertion_le_length gm.players me
  have hlt : findInsertion gm.players me - 1 < gm.players.length := by omega
  refine ⟨gm.players[findInsertion gm.players me - 1], List.getElem?_eq_getElem hlt, ?_⟩
  unfold throwBall
  rw [selfInsertion_some gm me hme]
  have h1 : ((findInsertion gm.players me : Int) - 1) ≥ 0 := by omega
  have h2 : ((findInsertion gm.players me : Int) - 1).toNat =
      findInsertion gm.players me - 1 := by omega
  simp only [hL, if_true, h1, h2, List.getElem?_eq_getElem hlt]

theorem throwBall_left_none (gm : V23Manager) (me : Player) (bc : BallCommand)
    (acceptErr : Bool) (hme : gm.myself = some me) (hL : bc.D = .Left)
    (hk : findInsertion gm.players me = 0) :
    throwBall gm bc acceptErr = .panic nobodyOnLeft gm := by
  unfold throwBall
  rw [selfInsertion_some gm me hme, hk]
  simp [hL]

theorem throwBall_right_target (gm : V23Manager) (me : Player) (bc : BallCommand)
    (acceptErr : Bool) (hme : gm.myself = some me) (hR : bc.D = .Right)
    (hk : findInsertion gm.players me < gm.players.length) :
    ∃ vp, gm.players[findInsertion gm.players me]? = some vp ∧
      throwBall gm bc acceptErr = sendBallRpc gm bc vp acceptErr := by
  refine ⟨gm.players[findInsertion gm.players me], List.getElem?_eq_getElem hk, ?_⟩
  unfold throwBall
  rw [selfInsertion_some gm me hme]
  have h1 : (findInsertion gm.players me : Int) ≤ (gm.players.length : Int) - 1 := by omega
  simp only [hR, h1, if_true, List.getElem?_eq_getElem hk]
  simp

theorem throwBall_right_none (gm : V23Manager) (me : Player) (bc : BallCommand)
    (acceptErr : Bool) (hme : gm.myself = some me) (hR : bc.D = .Right)
    (hk : findInsertion gm.players me = gm.players.length) :
    throwBall gm bc acceptErr = .panic nobodyOnRight gm := by
  unfold throwBall
  rw [selfInsertion_some gm me hme, hk]
  have h1 : ¬ ((gm.players.length : Int) ≤ (gm.players.length : Int) - 1) := by omega
  simp [hR, h1]

/-- A throw that added an `Accept` call to the log went to the entry left
or right of the insertion point. -/
theorem throwBall_sent_target (gm : V23Manager) (me : Player) (bc : BallCommand)
    (acceptErr : Bool) (vp : vPlayer) (wb : WireBall) (hme : gm.myself = some me)
    (hsent : (throwBall gm bc acceptErr).state.rpcs = gm.rpcs ++ [Rpc.Accept vp wb]) :
    (bc.D = .Left → 1 ≤ findInsertion gm.players me ∧
      gm.players[findInsertion gm.players me - 1]? = some vp) ∧
    (bc.D = .Right → gm.players[findInsertion gm.players me]? = some vp) := by
  have hle := findInsertion_le_length gm.players me
  constructor
  · intro hL
    by_cases hk : 1 ≤ findInsertion gm.players me
    · obtain ⟨vp1, hget, heq⟩ := throwBall_left_target gm me bc acceptErr hme hL hk
      rw [heq, (sendBallRpc_state gm bc vp1 acceptErr).1] at hsent
      simp only [List.append_cancel_left_eq, List.cons.injEq, Rpc.Accept.injEq, and_true] at hsent
      rw [← hsent.1]
      exact ⟨hk, hget⟩
    · have h0 : findInsertion gm.players me = 0 := by omega
      rw [throwBall_left_none gm me bc acceptErr hme hL h0] at hsent
      have := congrArg List.length hsent
      simp [Outcome.state] at this
  · intro hR
    by_cases hk : findInsertion gm.players me < gm.players.length
    · obtain ⟨vp1, hget, heq⟩ := throwBall_right_target gm me bc acceptErr hme hR hk
      rw [heq, (sendBallRpc_state gm bc vp1 acceptErr).1] at hsent
      simp only [List.append_cancel_left_eq, List.cons.injEq, Rpc.Accept.injEq, and_true] at hsent
      rw [← hsent.1]
      exact hget
    · have h0 : findInsertion gm.players me = gm.players.length := by omega
      rw [throwBall_right_none gm me bc acceptErr hme hR h0] at hsent
      have := congrArg List.length hsent
      simp [Outcome.state] at this

theorem getElem?_split {α : Type} (l : List α) (j : Nat) (x : α) (h : l[j]? = some x) :
    l.take (j + 1) = l.take j ++ [x] ∧ l.drop j = x :: l.drop (j + 1) := by
  induction l generalizing j with
  | nil => simp at h
  | cons a rest ih =>
    cases j with
    | zero =>
      simp only [List.getElem?_cons_zero, Option.some.injEq] at h
      subst h
      simp
    | succ j =>
      simp only [List.getElem?_cons_succ] at h
      obtain ⟨h1, h2⟩ := ih j h
      simp [h1, h2]

theorem sorted_around_index (l : List vPlayer) (j : Nat) (x : vPlayer)
    (hs : List.Sorted (· ≤ ·) (ids l)) (h : l[j]? = some x) :
    (∀ m ∈ l.take j, m.p.id ≤ x.p.id) ∧ (∀ m ∈ l.drop (j + 1), x.p.id ≤ m.p.id) := by
  induction l generalizing j with
  | nil => simp at h
  | cons a rest ih =>
    have ha : ∀ b ∈ ids rest, a.p.id ≤ b := by
      simp only [ids, List.map_cons, List.sorted_cons] at hs
      exact hs.1
    have hrest : List.Sorted (· ≤ ·) (ids rest) := by
      simp only [ids, List.map_cons, List.sorted_cons] at hs
      exact hs.2
    cases j with
    | zero =>
      simp only [List.getElem?_cons_zero, Option.some.injEq] at h
      subst h
      constructor
      · simp
      · intro m hm
        simp only [Nat.zero_add, List.drop_succ_cons, List.drop_zero] at hm
        exact ha _ (List.mem_map_of_mem _ hm)
    | succ j =>
      simp only [List.getElem?_cons_succ] at h
      obtain ⟨h1, h2⟩ := ih j hrest h
      constructor
      · intro m hm
        simp only [List.take_succ_cons, List.mem_cons] at hm
        rcases hm with hm | hm
        · subst hm
          exact ha _ (List.mem_map_of_mem _ (List.getElem?_mem h))
        · exact h1 m hm
      · intro m hm
        simp only [List.drop_succ_cons] at hm
        exact h2 m hm

theorem mem_take_or_drop {α : Type} (l : List α) (k : Nat) (m : α) (hm : m ∈ l) :
    m ∈ l.take k ∨ m ∈ l.drop k := by
  rw [← List.take_append_drop k l] at hm
  exact List.mem_append.mp hm

/-! ## Lemmas relating the doors to the insertion point -/

theorem doorTargets_left_open_iff (me : Player) (ps : List vPlayer) :
    (doorTargets me.id ps).1 = .Open ↔ 1 ≤ findInsertion ps me := by
  cases ps with
  | nil => simp [doorTargets, findInsertion]
  | cons first rest =>
    by_cases hlt : me.id < first.p.id
    · simp [doorTargets, findInsertion, hlt]
    · simp only [doorTargets, findInsertion, hlt, if_false]
      split_ifs <;> simp

theorem findInsertion_eq_length_of_all_le (ps : List vPlayer) (p : Player)
    (h : ∀ m ∈ ps, m.p.id ≤ p.id) : findInsertion ps p = ps.length := by
  induction ps with
  | nil => rfl
  | cons a rest ih =>
    have ha : ¬ p.id < a.p.id := by
      have := h a (List.mem_cons_self a rest)
      omega
    simp only [findInsertion, ha, if_false, List.length_cons]
    rw [ih (fun m hm => h m (List.mem_cons_of_mem a hm))]

theorem findInsertion_lt_length_of_exists (ps : List vPlayer) (p : Player) (m : vPlayer)
    (hm : m ∈ ps) (h : p.id < m.p.id) : findInsertion ps p < ps.length := by
  induction ps with
  | nil => simp at hm
  | cons a rest ih =>
    by_cases hlt : p.id < a.p.id
    · simp [findInsertion, hlt]
    · simp only [findInsertion, hlt, if_false, List.length_cons]
      rcases List.mem_cons.mp hm with hm | hm
      · subst hm
        exact absurd h hlt
      · have := ih hm
        omega

theorem sorted_le_getLast (first : vPlayer) (rest : List vPlayer)
    (hs : List.Sorted (· ≤ ·) (ids (first :: rest))) :
    ∀ m ∈ first :: rest,
      m.p.id ≤ ((first :: rest).getLast (List.cons_ne_nil first rest)).p.id := by
  induction rest generalizing first with
  | nil =>
    intro m hm
    simp only [List.mem_singleton] at hm
    subst hm
    simp
  | cons b bs ih =>
    have hb : first.p.id ≤ b.p.id := by
      simp only [ids, List.map_cons, List.sorted_cons, List.mem_cons] at hs
      exact hs.1 _ (Or.inl rfl)
    have hrest : List.Sorted (· ≤ ·) (ids (b :: bs)) := by
      simp only [ids, List.map_cons, List.sorted_cons] at hs ⊢
      exact hs.2
    intro m hm
    rw [List.getLast_cons (List.cons_ne_nil b bs)]
    rcases List.mem_cons.mp hm with hm | hm
    · subst hm
      have := ih b hrest b (List.mem_cons_self b bs)
      omega
    · exact ih b hrest m hm

theorem doorTargets_right_closed (me : Player) (ps : List vPlayer)
    (hs : List.Sorted (· ≤ ·) (ids ps)) (h : (doorTargets me.id ps).2 = .Closed) :
    findInsertion ps me = ps.length := by
  cases ps with
  | nil => rfl
  | cons first rest =>
    by_cases hlt : me.id < first.p.id
    · simp [doorTargets, hlt] at h
    · by_cases hlast :
        ((first :: rest).getLast (List.cons_ne_nil first rest)).p.id < me.id
      · apply findInsertion_eq_length_of_all_le
        intro m hm
        have := sorted_le_getLast first rest hs m hm
        omega
      · simp [doorTargets, hlt, hlast] at h

theorem doorTargets_right_open (me : Player) (ps : List vPlayer)
    (hne : ∀ m, ps.getLast? = some m → m.p.id ≠ me.id)
    (h : (doorTargets me.id ps).2 = .Open) :
    findInsertion ps me < ps.length := by
  cases ps with
  | nil => simp [doorTargets] at h
  | cons first rest =>
    by_cases hlt : me.id < first.p.id
    · simp [findInsertion, hlt]
    · by_cases hlast :
        ((first :: rest).getLast (List.cons_ne_nil first rest)).p.id < me.id
      · simp [doorTargets, hlt, hlast] at h
      · have hn := hne _ (List.getLast?_eq_getLast (first :: rest) (List.cons_ne_nil first rest))
        apply findInsertion_lt_length_of_exists (first :: rest) me
          ((first :: rest).getLast (List.cons_ne_nil first rest))
          (List.getLast_mem (List.cons_ne_nil first rest))
        omega

theorem doorState_closed_iff (d : DoorState) : d = .Closed ↔ ¬ d = .Open := by
  cases d <;> simp

/-! ## Lemmas on single door commands and on the round trip -/

theorem assureDoor_same (gm : V23Manager) (dc : DoorCommand)
    (h : doorOn gm dc.D = dc.S) : assureDoor gm dc = .done gm := by
  obtain ⟨run, master, l0, r0, root, me, ps, init, ch, sent, rpcs⟩ := gm
  obtain ⟨st, side⟩ := dc
  revert h
  cases st <;> cases side <;> cases l0 <;> cases r0 <;> simp [assureDoor, doorOn]

theorem assureDoor_change (gm : V23Manager) (dc : DoorCommand)
    (hc : gm.chDoorCommand = .ready) (h : doorOn gm dc.D ≠ dc.S) :
    assureDoor gm dc =
      .done { setDoor gm dc.D dc.S with doorsSent := gm.doorsSent ++ [dc] } := by
  obtain ⟨run, master, l0, r0, root, me, ps, init, ch, sent, rpcs⟩ := gm
  obtain ⟨st, side⟩ := dc
  simp only at hc
  subst hc
  revert h
  cases st <;> cases side <;> cases l0 <;> cases r0 <;>
    simp [assureDoor, sendDoorCommand, doorOn, setDoor]

theorem assureDoor_done (gm g : V23Manager) (dc : DoorCommand)
    (h : assureDoor gm dc = .done g) :
    doorOn g dc.D = dc.S ∧
    g.doorsSent = gm.doorsSent ++ (if doorOn gm dc.D = dc.S then [] else [dc]) := by
  obtain ⟨run, master, l0, r0, root, me, ps, init, ch, sent, rpcs⟩ := gm
  obtain ⟨st, side⟩ := dc
  revert h
  cases ch <;> cases st <;> cases side <;> cases l0 <;> cases r0 <;>
    simp [assureDoor, sendDoorCommand, doorOn] <;>
    intro h <;> subst h <;> simp

theorem recognizeOther_frame (gm : V23Manager) (p : Player) :
    (recognizeOther gm p).state.myself = gm.myself ∧
    (recognizeOther gm p).state.chDoorCommand = gm.chDoorCommand := by
  unfold recognizeOther
  by_cases hr : gm.isRunning = true
  · simp only [hr, if_true]
    exact ⟨(checkDoors_frame _).2.1, (checkDoors_frame _).2.2.2.2.1⟩
  · simp only [hr]
    exact ⟨rfl, rfl⟩

theorem recognizeOther_returns (gm : V23Manager) (me p : Player)
    (hme : gm.myself = some me) (hc : gm.chDoorCommand = .ready) :
    (recognizeOther gm p).returned = true := by
  unfold recognizeOther
  by_cases hr : gm.isRunning = true
  · simp only [hr, if_true]
    rw [checkDoors_ready _ me (by exact hme) (by exact hc)]
    rfl
  · simp only [hr]
    rfl

theorem forgetOther_returns (gm : V23Manager) (me p : Player)
    (hme : gm.myself = some me) (hc : gm.chDoorCommand = .ready) :
    (forgetOther gm p).returned = true := by
  rw [forgetOther_eq, checkDoors_ready _ me (by exact hme) (by exact hc)]
  rfl

/-! ## Lemmas on removal and on prefixes of an operation sequence -/

theorem eraseFirst_of_not_mem (x : Int) (ps : List vPlayer) (h : x ∉ ids ps) :
    eraseFirst x ps = ps := by
  induction ps with
  | nil => rfl
  | cons m rest ih =>
    have hm : m.p.id ≠ x := by
      intro he
      apply h
      simp [ids, he]
    have hrest : x ∉ ids rest := by
      intro hin
      apply h
      simp only [ids, List.map_cons, List.mem_cons]
      exact Or.inr hin
    simp only [eraseFirst, hm, if_false]
    rw [ih hrest]

theorem eraseFirst_split (x : Int) (ps : List vPlayer) (h : x ∈ ids ps) :
    ∃ front m back, ps = front ++ m :: back ∧ m.p.id = x ∧
      (∀ b ∈ front, b.p.id ≠ x) ∧ eraseFirst x ps = front ++ back := by
  induction ps with
  | nil => simp [ids] at h
  | cons a rest ih =>
    by_cases ha : a.p.id = x
    · exact ⟨[], a, rest, rfl, ha, by simp, by simp [eraseFirst, ha]⟩
    · have hrest : x ∈ ids rest := by
        simp only [ids, List.map_cons, List.mem_cons] at h
        rcases h with h | h
        · exact absurd h.symm ha
        · exact h
      obtain ⟨front, m, back, hps, hm, hfront, herase⟩ := ih hrest
      refine ⟨a :: front, m, back, by rw [hps]; rfl, hm, ?_, ?_⟩
      · intro b hb
        rcases List.mem_cons.mp hb with hb | hb
        · rw [hb]
          exact ha
        · exact hfront b hb
      · simp only [eraseFirst, ha, if_false, herase, List.cons_append]

theorem count_ids_eraseFirst (x : Int) (ps : List vPlayer) :
    (ids (eraseFirst x ps)).count x = (ids ps).count x - 1 := by
  induction ps with
  | nil => rfl
  | cons a rest ih =>
    by_cases ha : a.p.id = x
    · simp [eraseFirst, ha, ids]
    · simp only [eraseFirst, ha, if_false]
      change (a.p.id :: ids (eraseFirst x rest)).count x = (a.p.id :: ids rest).count x - 1
      rw [List.count_cons_of_ne (Ne.symm ha), List.count_cons_of_ne (Ne.symm ha), ih]

theorem freshRecognizes_take (gm : V23Manager) (ops : List MemberOp) (n : Nat)
    (h : freshRecognizes gm ops = true) : freshRecognizes gm (ops.take n) = true := by
  induction ops generalizing gm n with
  | nil => simp [freshRecognizes]
  | cons op rest ih =>
    cases n with
    | zero => simp [freshRecognizes]
    | succ n =>
      simp only [freshRecognizes, Bool.and_eq_true, List.take_succ_cons] at h ⊢
      refine ⟨h.1, ?_⟩
      have h2 := h.2
      cases hr : applyOp gm op with
      | done g =>
        rw [hr] at h2
        exact ih g n h2
      | panic msg g => rfl

/-! ## Lemmas on the preparation of the loop -/

theorem recognizeOther_not_running (gm : V23Manager) (p : Player)
    (h : gm.isRunning = false) :
    recognizeOther gm p =
      .done { gm with players := insertSorted (entryFor gm.rootName p) gm.players } := by
  have hk := take_findInsertion gm.players (entryFor gm.rootName p)
  change gm.players.take (findInsertion gm.players p) ++
    entryFor gm.rootName p :: gm.players.drop (findInsertion gm.players p) = _ at hk
  unfold recognizeOther
  simp only [h]
  rw [← hk]
  rfl

theorem replay_not_running (gm : V23Manager) (l : List Int) (h : gm.isRunning = false) :
    replay gm l = .done { gm with players := insertAll gm.rootName gm.players l } := by
  induction l generalizing gm with
  | nil => rfl
  | cons id rest ih =>
    simp only [replay, recognizeOther_not_running gm ⟨id⟩ h]
    rw [ih _ (by exact h)]
    rfl

theorem sorted_insertAll (rootName : String) (ps : List vPlayer) (l : List Int)
    (h : List.Sorted (· ≤ ·) (ids ps)) :
    List.Sorted (· ≤ ·) (ids (insertAll rootName ps l)) := by
  induction l generalizing ps with
  | nil => exact h
  | cons id rest ih => exact ih _ (sorted_le_insertSorted _ _ h)

theorem perm_ids_insertSorted (vp : vPlayer) (ps : List vPlayer) :
    (ids (insertSorted vp ps)).Perm (vp.p.id :: ids ps) := by
  induction ps with
  | nil => exact List.Perm.refl _
  | cons m rest ih =>
    by_cases hlt : vp.p.id < m.p.id
    · simp only [insertSorted, hlt, if_true]
      exact List.Perm.refl _
    · simp only [insertSorted, hlt, if_false]
      change (m.p.id :: ids (insertSorted vp rest)).Perm (vp.p.id :: m.p.id :: ids rest)
      exact (List.Perm.cons _ ih).trans (List.Perm.swap _ _ _)

theorem perm_ids_insertAll (rootName : String) (ps : List vPlayer) (l : List Int) :
    (ids (insertAll rootName ps l)).Perm (l ++ ids ps) := by
  induction l generalizing ps with
  | nil => exact List.Perm.refl _
  | cons id rest ih =>
    refine (ih _).trans ?_
    have h1 := perm_ids_insertSorted (entryFor rootName ⟨id⟩) ps
    change (ids (insertSorted (entryFor rootName ⟨id⟩) ps)).Perm (id :: ids ps) at h1
    refine (List.Perm.append_left rest h1).trans ?_
    simp only [List.cons_append]
    exact List.perm_middle

theorem sayHelloLoop_spec (wp : WirePlayer) (helloErr : Nat → Bool) (l : List vPlayer)
    (i : Nat) (gm : V23Manager) :
    ∃ c, c ≤ l.length ∧
      (sayHelloLoop wp helloErr l i gm).state =
        { gm with rpcs := gm.rpcs ++ (l.take c).map (fun vp => Rpc.Recognize vp wp) } ∧
      (∀ j, j + 1 < c → helloErr (i + j) = false) ∧
      ((sayHelloLoop wp helloErr l i gm).returned = true →
        c = l.length ∧ ∀ j, j < l.length → helloErr (i + j) = false) ∧
      ((sayHelloLoop wp helloErr l i gm).returned = false →
        1 ≤ c ∧ helloErr (i + (c - 1)) = true) := by
  induction l generalizing i gm with
  | nil =>
    refine ⟨0, le_refl _, ?_, ?_, ?_, ?_⟩
    · simp [sayHelloLoop, Outcome.state]
    · intro j hj
      omega
    · intro _
      exact ⟨rfl, fun j hj => absurd hj (by simp)⟩
    · intro h
      simp [sayHelloLoop, Outcome.returned] at h
  | cons vp rest ih =>
    by_cases he : helloErr i = true
    · refine ⟨1, by simp, ?_, ?_, ?_, ?_⟩
      · simp [sayHelloLoop, he, Outcome.state]
      · intro j hj
        omega
      · intro h
        simp [sayHelloLoop, he, Outcome.returned] at h
      · intro _
        exact ⟨le_refl _, by simpa using he⟩
    · have he2 : helloErr i = false := by simpa using he
      obtain ⟨c, hc, hstate, hbefore, hret, hfail⟩ :=
        ih (i + 1) { gm with rpcs := gm.rpcs ++ [Rpc.Recognize vp wp] }
      have hloop : sayHelloLoop wp helloErr (vp :: rest) i gm =
          sayHelloLoop wp helloErr rest (i + 1)
            { gm with rpcs := gm.rpcs ++ [Rpc.Recognize vp wp] } := by
        simp [sayHelloLoop, he2]
      refine ⟨c + 1, by simpa using hc, ?_, ?_, ?_, ?_⟩
      · rw [hloop, hstate]
        simp
      · intro j hj
        cases j with
        | zero => exact he2
        | succ j =>
          have := hbefore j (by omega)
          rw [show i + (j + 1) = i + 1 + j by omega]
          exact this
      · intro h
        rw [hloop] at h
        obtain ⟨h1, h2⟩ := hret h
        refine ⟨by simp [h1], ?_⟩
        intro j hj
        cases j with
        | zero => exact he2
        | succ j =>
          have := h2 j (by simpa using hj)
          rw [show i + (j + 1) = i + 1 + j by omega]
          exact this
      · intro h
        rw [hloop] at h
        obtain ⟨h1, h2⟩ := hfail h
        refine ⟨by omega, ?_⟩
        rw [show i + (c + 1 - 1) = i + 1 + (c - 1) by omega]
        exact h2

theorem Run_nil (gm : V23Manager) : Run gm [] = checkDoors gm := by
  unfold Run
  cases checkDoors gm <;> rfl

theorem RunPrep_not_running (gm : V23Manager) (chBc : Chan) (helloErr : Nat → Bool)
    (hrun : gm.isRunning = false) :
    RunPrep gm chBc helloErr =
      (if gm.isGameMaster then
        (if chBc ≠ .nil then
          Outcome.panic masterWithBalls
            { gm with players := insertAll gm.rootName gm.players gm.initialPlayerNumbers }
        else Outcome.done
            { gm with players := insertAll gm.rootName gm.players gm.initialPlayerNumbers })
      else sayHelloToEveryone
          { gm with players := insertAll gm.rootName gm.players gm.initialPlayerNumbers }
          helloErr).andThen (fun g2 => .done { g2 with isRunning := true }) := by
  unfold RunPrep
  rw [replay_not_running gm gm.initialPlayerNumbers hrun]
  rfl

/-- What `RunPrep` does on a manager that is not running yet and knows its
own id: the roster becomes `insertAll`, a master sends nothing, another
player says hello up to the first failure. -/
theorem RunPrep_spec (gm : V23Manager) (me : Player) (chBc : Chan) (helloErr : Nat → Bool)
    (hrun : gm.isRunning = false) (hme : gm.myself = some me) :
    ∃ c, c ≤ (insertAll gm.rootName gm.players gm.initialPlayerNumbers).length ∧
      (RunPrep gm chBc helloErr).state =
        { gm with
          players := insertAll gm.rootName gm.players gm.initialPlayerNumbers
          isRunning := (RunPrep gm chBc helloErr).returned
          rpcs := gm.rpcs ++
            ((insertAll gm.rootName gm.players gm.initialPlayerNumbers).take c).map
              (fun vp => Rpc.Recognize vp ⟨toInt32 me.id⟩) } ∧
      (gm.isGameMaster = true → c = 0 ∧
        ((RunPrep gm chBc helloErr).returned = false ↔ chBc ≠ .nil)) ∧
      (gm.isGameMaster = false →
        (∀ j, j + 1 < c → helloErr j = false) ∧
        ((RunPrep gm chBc helloErr).returned = true →
          c = (insertAll gm.rootName gm.players gm.initialPlayerNumbers).length ∧
          ∀ j, j < (insertAll gm.rootName gm.players gm.initialPlayerNumbers).length →
            helloErr j = false) ∧
        ((RunPrep gm chBc helloErr).returned = false →
          1 ≤ c ∧ helloErr (c - 1) = true)) := by
  rw [RunPrep_not_running gm chBc helloErr hrun]
  by_cases hm : gm.isGameMaster = true
  · refine ⟨0, Nat.zero_le _, ?_, ?_, ?_⟩
    · cases chBc <;>
        simp [hm, hrun, Outcome.andThen, Outcome.state, Outcome.returned]
    · intro _
      refine ⟨rfl, ?_⟩
      cases chBc <;> simp [hm, Outcome.andThen, Outcome.returned]
    · intro h
      rw [hm] at h
      cases h
  · have hm2 : gm.isGameMaster = false := by simpa using hm
    rw [if_neg hm]
    generalize hG : ({ gm with
      players := insertAll gm.rootName gm.players gm.initialPlayerNumbers } : V23Manager) = G
    have hGme : G.myself = some me := by rw [← hG]; exact hme
    have hGp : G.players = insertAll gm.rootName gm.players gm.initialPlayerNumbers := by
      rw [← hG]
    have hsay : sayHelloToEveryone G helloErr =
        sayHelloLoop ⟨toInt32 me.id⟩ helloErr G.players 0 G := by
      unfold sayHelloToEveryone
      rw [hGme]
    obtain ⟨c, hc, hstate, hbefore, hret, hfail⟩ :=
      sayHelloLoop_spec ⟨toInt32 me.id⟩ helloErr G.players 0 G
    simp only [Nat.zero_add] at hbefore hret hfail
    rw [hsay]
    rw [hGp] at hc
    cases hr : sayHelloLoop ⟨toInt32 me.id⟩ helloErr G.players 0 G with
    | done g2 =>
      rw [hr] at hstate hret hfail
      simp only [Outcome.state] at hstate
      refine ⟨c, hc, ?_, ?_, ?_⟩
      · simp only [Outcome.andThen, Outcome.state, Outcome.returned]
        rw [hstate, ← hGp, ← hG]
      · intro h
        rw [hm2] at h
        cases h
      · intro _
        refine ⟨hbefore, ?_, ?_⟩
        · intro _
          have hret2 := hret rfl
          rw [hGp] at hret2
          exact hret2
        · intro h
          simp [Outcome.andThen, Outcome.returned] at h
    | panic msg g2 =>
      rw [hr] at hstate hret hfail
      simp only [Outcome.state] at hstate
      refine ⟨c, hc, ?_, ?_, ?_⟩
      · simp only [Outcome.andThen, Outcome.state, Outcome.returned]
        rw [hstate, ← hGp, ← hG]
        simp [hrun]
      · intro h
        rw [hm2] at h
        cases h
      · intro _
        refine ⟨hbefore, ?_, ?_⟩
        · intro h
          simp [Outcome.andThen, Outcome.returned] at h
        · intro _
          exact hfail rfl

/-! ## Lemmas on discovery and on the choice of the own id -/

theorem parseInt32_range (s : String) (v : Int) (h : parseInt32 s = some v) :
    -(2 ^ 31) ≤ v ∧ v ≤ 2 ^ 31 - 1 := by
  unfold parseInt32 at h
  simp only at h
  split_ifs at h <;> cases h <;> constructor <;> omega

theorem idOfReply_range (rootName : String) (r : GlobReply) (v : Int)
    (h : idOfReply rootName r = some v) : -(2 ^ 31) ≤ v ∧ v ≤ 2 ^ 31 - 1 := by
  cases r with
  | other => simp [idOfReply] at h
  | entry name =>
    simp only [idOfReply] at h
    split_ifs at h
    obtain ⟨s, -, hs⟩ := Option.bind_eq_some.mp h
    exact parseInt32_range s v hs

theorem playerNumbersLoop_eq (rootName : String) (replies : List GlobReply)
    (acc found : List Int) (h : playerNumbersLoop rootName replies acc = .ok found) :
    found = acc ++ replies.filterMap (idOfReply rootName) := by
  induction replies generalizing acc with
  | nil =>
    simp only [playerNumbersLoop, Except.ok.injEq] at h
    simp [h]
  | cons r rest ih =>
    cases r with
    | other =>
      simp only [playerNumbersLoop] at h
      rw [ih acc h]
      simp [idOfReply]
    | entry name =>
      simp only [playerNumbersLoop] at h
      by_cases hn : name = ""
      · simp only [hn, ne_eq, not_true_eq_false, if_false] at h
        rw [ih acc h]
        simp [idOfReply, hn]
      · simp only [ne_eq, hn, not_false_eq_true, if_true] at h
        cases hs : sliceFrom name rootName.utf8ByteSize with
        | none =>
          rw [hs] at h
          cases h
        | some suffix =>
          rw [hs] at h
          simp only at h
          cases hp : parseInt32 suffix with
          | none =>
            rw [hp] at h
            rw [ih acc h]
            simp [idOfReply, hn, hs, hp]
          | some n =>
            rw [hp] at h
            rw [ih (acc ++ [n]) h]
            simp [idOfReply, hn, hs, hp]

theorem playerNumbersLoop_returns (rootName : String) (replies : List GlobReply)
    (acc : List Int) (h : ∀ r ∈ replies, longEnough rootName r = true) :
    ∃ found, playerNumbersLoop rootName replies acc = .ok found := by
  induction replies generalizing acc with
  | nil => exact ⟨acc, rfl⟩
  | cons r rest ih =>
    have hrest : ∀ r ∈ rest, longEnough rootName r = true :=
      fun x hx => h x (List.mem_cons_of_mem r hx)
    cases r with
    | other => exact ih acc hrest
    | entry name =>
      simp only [playerNumbersLoop]
      by_cases hn : name = ""
      · simp only [hn, ne_eq, not_true_eq_false, if_false]
        exact ih acc hrest
      · simp only [ne_eq, hn, not_false_eq_true, if_true]
        have hl := h (.entry name) (List.mem_cons_self _ _)
        simp only [longEnough, hn, decide_False, Bool.false_or, decide_eq_true_eq] at hl
        have hs : sliceFrom name rootName.utf8ByteSize =
            some (name.extract ⟨rootName.utf8ByteSize⟩ name.endPos) := by
          unfold sliceFrom
          rw [if_neg (by omega)]
        rw [hs]
        simp only
        cases parseInt32 (name.extract ⟨rootName.utf8ByteSize⟩ name.endPos) with
        | none => exact ih acc hrest
        | some n => exact ih (acc ++ [n]) hrest

theorem playerNumbers_range (rootName : String) (glob : Option (List GlobReply))
    (found : List Int) (h : playerNumbers rootName glob = .ok found) :
    ∀ n ∈ found, -(2 ^ 31) ≤ n ∧ n ≤ 2 ^ 31 - 1 := by
  cases glob with
  | none =>
    simp only [playerNumbers, Except.ok.injEq] at h
    rw [← h]
    simp
  | some replies =>
    have hf := playerNumbersLoop_eq rootName replies [] found h
    rw [hf]
    intro n hn
    simp only [List.nil_append, List.mem_filterMap] at hn
    obtain ⟨r, -, hr⟩ := hn
    exact idOfReply_range rootName r n hr

theorem wrapInt_of_range (n : Int) (h1 : -(2 ^ 63) ≤ n) (h2 : n < 2 ^ 63) :
    wrapInt n = n := by
  unfold wrapInt
  have e63 : (2 : Int) ^ 63 = 9223372036854775808 := by norm_num
  have e64 : (2 : Int) ^ 64 = 18446744073709551616 := by norm_num
  rw [e63] at h1 h2 ⊢
  rw [e64]
  omega

theorem foldl_max_ge (a : Int) (l : List Int) :
    a ≤ l.foldl max a ∧ ∀ d ∈ l, d ≤ l.foldl max a := by
  induction l generalizing a with
  | nil => simp
  | cons b bs ih =>
    obtain ⟨h1, h2⟩ := ih (max a b)
    simp only [List.foldl_cons, List.mem_cons]
    refine ⟨le_trans (le_max_left a b) h1, ?_⟩
    intro d hd
    rcases hd with hd | hd
    · rw [hd]
      exact le_trans (le_max_right a b) h1
    · exact h2 d hd

theorem foldl_max_mem (a : Int) (l : List Int) : l.foldl max a ∈ a :: l := by
  induction l generalizing a with
  | nil => simp
  | cons b bs ih =>
    have h := ih (max a b)
    simp only [List.foldl_cons, List.mem_cons] at h ⊢
    rcases h with h | h
    · rw [h]
      rcases max_choice a b with hm | hm
      · exact Or.inl hm
      · exact Or.inr (Or.inl hm)
    · exact Or.inr (Or.inr h)

theorem sorted_getLast?_ge (l : List Int) (x : Int) (hs : List.Sorted (· ≤ ·) l)
    (h : l.getLast? = some x) : x ∈ l ∧ ∀ d ∈ l, d ≤ x := by
  obtain ⟨ys, hys⟩ := List.getLast?_eq_some_iff.mp h
  subst hys
  refine ⟨by simp, ?_⟩
  intro d hd
  rcases List.mem_append.mp hd with hd | hd
  · exact (List.pairwise_append.mp hs).2.2 d hd x (by simp)
  · simp only [List.mem_singleton] at hd
    rw [hd]

theorem sortInts_sorted (l : List Int) : List.Sorted (· ≤ ·) (sortInts l) :=
  List.sorted_insertionSort (· ≤ ·) l

theorem sortInts_perm (l : List Int) : (sortInts l).Perm l :=
  List.perm_insertionSort (· ≤ ·) l

theorem sortInts_eq_nil (l : List Int) : sortInts l = [] ↔ l = [] := by
  constructor
  · intro h
    have := (sortInts_perm l).length_eq
    rw [h] at this
    exact List.length_eq_zero.mp this.symm
  · intro h
    rw [h]
    rfl

/-- The id `IsReadyToRun` takes for a player that is not master, from the
sorted ids. -/
theorem next_id_above (found : List Int)
    (hr : ∀ n ∈ found, -(2 ^ 31) ≤ n ∧ n ≤ 2 ^ 31 - 1) :
    (found = [] → chosenId found = 1) ∧
    (∀ a rest, found = a :: rest → chosenId found = rest.foldl max a + 1) ∧
    (∀ d ∈ found, d < chosenId found) := by
  unfold chosenId
  have e31 : (2 : Int) ^ 31 = 2147483648 := by norm_num
  have e63 : (2 : Int) ^ 63 = 9223372036854775808 := by norm_num
  cases hl : (sortInts found).getLast? with
  | none =>
    have hnil : found = [] :=
      (sortInts_eq_nil found).mp (List.getLast?_eq_none_iff.mp hl)
    subst hnil
    simp
  | some last =>
    obtain ⟨hmem, hge⟩ := sorted_getLast?_ge _ last (sortInts_sorted found) hl
    have hmem2 : last ∈ found := (sortInts_perm found).mem_iff.mp hmem
    have hge2 : ∀ d ∈ found, d ≤ last :=
      fun d hd => hge d ((sortInts_perm found).mem_iff.mpr hd)
    have hlr := hr last hmem2
    have hw : wrapInt (last + 1) = last + 1 := by
      apply wrapInt_of_range
      · rw [e63]
        rw [e31] at hlr
        omega
      · rw [e63]
        rw [e31] at hlr
        omega
    simp only [hw]
    refine ⟨?_, ?_, ?_⟩
    · intro hnil
      rw [hnil] at hmem2
      simp at hmem2
    · intro a rest hfound
      have h1 := foldl_max_ge a rest
      have h2 := foldl_max_mem a rest
      rw [← hfound] at h2
      have h3 := hge2 _ h2
      have h4 : last ≤ rest.foldl max a := by
        rw [hfound] at hmem2
        rcases List.mem_cons.mp hmem2 with h | h
        · rw [h]
          exact h1.1
        · exact h1.2 last h
      rw [le_antisymm h4 h3]
    · intro d hd
      exact Int.lt_add_one_iff.mpr (hge2 d hd)

theorem IsReadyToRun_ready (gm g : V23Manager) (master : Bool) (env : Startup)
    (h : IsReadyToRun gm master env = .returned true g) :
    ∃ found, playerNumbers gm.rootName env.glob = .ok found ∧
      g = { gm with
        isGameMaster := master
        initialPlayerNumbers := sortInts found
        myself := some ⟨if master then 999 else chosenId found⟩ } := by
  unfold IsReadyToRun at h
  by_cases h1 : (env.failFast && !env.gotNetwork) = true
  · rw [if_pos h1] at h
    simp at h
  · rw [if_neg h1] at h
    by_cases h2 : env.shutdownNil = true
    · simp only [h2, if_true] at h
      cases h
    · simp only [h2] at h
      cases hp : playerNumbers gm.rootName env.glob with
      | error msg =>
        rw [hp] at h
        cases h
      | ok found =>
        rw [hp] at h
        refine ⟨found, rfl, ?_⟩
        cases master with
        | true =>
          simp only [Bool.false_eq_true, if_false, if_true, ReadyOutcome.returned.injEq,
            true_and] at h
          rw [← h]
          rfl
        | false =>
          by_cases h3 : env.serveErr = true
          · simp [h3] at h
          · simp only [h3, Bool.false_eq_true, if_false, ReadyOutcome.returned.injEq,
              true_and] at h
            rw [← h]
            rfl

theorem doorTargets_rightmost (me : Int) (ps : List vPlayer)
    (h : ∀ m ∈ ps, m.p.id < me) :
    doorTargets me ps = if ps = [] then (.Closed, .Closed) else (.Open, .Closed) := by
  cases ps with
  | nil => rfl
  | cons first rest =>
    have h1 : ¬ me < first.p.id := by
      have := h first (List.mem_cons_self _ _)
      omega
    have h2 : ((first :: rest).getLast (List.cons_ne_nil first rest)).p.id < me :=
      h _ (List.getLast_mem _)
    simp [doorTargets, h1, h2]

theorem playerCountLoop_names (names : List String) (count : Int)
    (hne : ∀ name ∈ names, name ≠ "") (h0 : 0 ≤ count)
    (hlen : count + (names.length : Int) < 2 ^ 63) :
    playerCountLoop (names.map GlobReply.entry) count = count + names.length := by
  have e63 : (2 : Int) ^ 63 = 9223372036854775808 := by norm_num
  induction names generalizing count with
  | nil => simp [playerCountLoop]
  | cons name rest ih =>
    have hn : name ≠ "" := hne name (List.mem_cons_self _ _)
    have hrest : ∀ x ∈ rest, x ≠ "" := fun x hx => hne x (List.mem_cons_of_mem _ hx)
    simp only [List.length_cons, Nat.cast_add, Nat.cast_one] at hlen
    have hw : wrapInt (count + 1) = count + 1 := by
      apply wrapInt_of_range
      · rw [e63]
        omega
      · rw [e63] at hlen ⊢
        omega
    simp only [List.map_cons, playerCountLoop, ne_eq, hn, not_false_eq_true, if_true, hw,
      List.length_cons, Nat.cast_add, Nat.cast_one]
    rw [ih (count + 1) hrest (by omega) (by omega)]
    omega

/-! ## Claims -/

/-- C1, as stated, fails: recognizing the id 5 twice from an empty roster
leaves the ids `[5, 5]`, which are not strictly ascending. -/
theorem roster_not_strict_after_double_recognize :
    (sample 1 [] .Closed .Closed).players = [] ∧
    ids (applyOps (sample 1 [] .Closed .Closed)
      [.recognize ⟨5⟩, .recognize ⟨5⟩]).state.players = [5, 5] ∧
    ¬ List.Sorted (· < ·) (ids (applyOps (sample 1 [] .Closed .Closed)
      [.recognize ⟨5⟩, .recognize ⟨5⟩]).state.players) := by
  refine ⟨rfl, rfl, ?_⟩
  have h : ids (applyOps (sample 1 [] .Closed .Closed)
      [.recognize ⟨5⟩, .recognize ⟨5⟩]).state.players = [5, 5] := rfl
  rw [h]
  decide

/-- C1 (amended): after every finite sequence of Recognize and Forget
operations applied to an empty roster, with arbitrary ids, the roster is
sorted ascending by id (consecutive ids satisfy `≤`); when every Recognize of
the sequence is for an id not in the roster at that moment, the roster is
strictly ascending and no id occurs twice. -/
theorem roster_sorted_after_ops (gm : V23Manager) (ops : List MemberOp)
    (hempty : gm.players = []) :
    List.Sorted (· ≤ ·) (ids (applyOps gm ops).state.players) ∧
    (freshRecognizes gm ops = true →
      List.Sorted (· < ·) (ids (applyOps gm ops).state.players) ∧
      (ids (applyOps gm ops).state.players).Nodup) := by
  have h0 : ids gm.players = [] := by simp [hempty, ids]
  refine ⟨applyOps_sorted_le gm ops (by simp [h0]), ?_⟩
  intro hf
  have hs := applyOps_sorted_lt gm ops (by simp [h0]) hf
  exact ⟨hs, hs.nodup⟩

/-- Instance of C1 (amended): recognize 5, recognize 3, forget 5, recognize 4
from an empty roster. -/
theorem roster_sorted_after_ops_witness :
    List.Sorted (· ≤ ·) (ids (applyOps (sample 1 [] .Closed .Closed)
      [.recognize ⟨5⟩, .recognize ⟨3⟩, .forget ⟨5⟩, .recognize ⟨4⟩]).state.players) ∧
    List.Sorted (· < ·) (ids (applyOps (sample 1 [] .Closed .Closed)
      [.recognize ⟨5⟩, .recognize ⟨3⟩, .forget ⟨5⟩, .recognize ⟨4⟩]).state.players) ∧
    (ids (applyOps (sample 1 [] .Closed .Closed)
      [.recognize ⟨5⟩, .recognize ⟨3⟩, .forget ⟨5⟩, .recognize ⟨4⟩]).state.players).Nodup :=
  ⟨(roster_sorted_after_ops (sample 1 [] .Closed .Closed)
      [.recognize ⟨5⟩, .recognize ⟨3⟩, .forget ⟨5⟩, .recognize ⟨4⟩] rfl).1,
    (roster_sorted_after_ops (sample 1 [] .Closed .Closed)
      [.recognize ⟨5⟩, .recognize ⟨3⟩, .forget ⟨5⟩, .recognize ⟨4⟩] rfl).2 rfl⟩

/-- C2: for every own id and every roster sorted ascending by id, whatever
the doors were before, `checkDoors` returns when the door channel is usable,
and whenever it returns the pair `(leftDoor, rightDoor)` is the one the rule
of section 4.3 gives for the own id and the roster ids: `(Closed, Closed)` for
an empty roster, `(Closed, Open)` when the own id is below the minimum,
`(Open, Closed)` when the maximum is below the own id, `(Open, Open)`
otherwise; the roster is left as it was. -/
theorem checkDoors_follows_rule (gm : V23Manager) (me : Player)
    (hme : gm.myself = some me) (hs : List.Sorted (· ≤ ·) (ids gm.players)) :
    (gm.chDoorCommand = .ready → (checkDoors gm).returned = true) ∧
    (∀ g, checkDoors gm = .done g →
      (g.leftDoor, g.rightDoor) = doorRule me.id (ids gm.players) ∧
      g.players = gm.players) := by
  constructor
  · intro hc
    rw [checkDoors_ready gm me hme hc]
    rfl
  · intro g hg
    have h := checkDoors_done gm g me hme hg
    rw [← doorTargets_eq_doorRule me.id gm.players hs]
    rw [h]
    exact ⟨rfl, rfl⟩

/-- Instances of C2 with own id 5: the rosters `[]`, `[3, 7]`, `[10]` and `[1]`
give `(Closed, Closed)`, `(Open, Open)`, `(Closed, Open)` and `(Open, Closed)`,
from doors that were closed, open or mixed before. -/
theorem checkDoors_follows_rule_witness :
    ((checkDoors (sample 5 [] .Open .Closed)).returned = true ∧
      ∀ g, checkDoors (sample 5 [] .Open .Closed) = .done g →
        (g.leftDoor, g.rightDoor) = (.Closed, .Closed) ∧ ids g.players = []) ∧
    ((checkDoors (sample 5 [3, 7] .Closed .Closed)).returned = true ∧
      ∀ g, checkDoors (sample 5 [3, 7] .Closed .Closed) = .done g →
        (g.leftDoor, g.rightDoor) = (.Open, .Open) ∧ ids g.players = [3, 7]) ∧
    ((checkDoors (sample 5 [10] .Open .Open)).returned = true ∧
      ∀ g, checkDoors (sample 5 [10] .Open .Open) = .done g →
        (g.leftDoor, g.rightDoor) = (.Closed, .Open) ∧ ids g.players = [10]) ∧
    ((checkDoors (sample 5 [1] .Closed .Open)).returned = true ∧
      ∀ g, checkDoors (sample 5 [1] .Closed .Open) = .done g →
        (g.leftDoor, g.rightDoor) = (.Open, .Closed) ∧ ids g.players = [1]) :=
  ⟨⟨(checkDoors_follows_rule (sample 5 [] .Open .Closed) ⟨5⟩ rfl (by decide)).1 rfl,
      fun g hg =>
        ⟨((checkDoors_follows_rule (sample 5 [] .Open .Closed) ⟨5⟩ rfl
            (by decide)).2 g hg).1,
          congrArg ids ((checkDoors_follows_rule (sample 5 [] .Open .Closed) ⟨5⟩ rfl
            (by decide)).2 g hg).2⟩⟩,
    ⟨(checkDoors_follows_rule (sample 5 [3, 7] .Closed .Closed) ⟨5⟩ rfl (by decide)).1 rfl,
      fun g hg =>
        ⟨((checkDoors_follows_rule (sample 5 [3, 7] .Closed .Closed) ⟨5⟩ rfl
            (by decide)).2 g hg).1,
          congrArg ids ((checkDoors_follows_rule (sample 5 [3, 7] .Closed .Closed) ⟨5⟩ rfl
            (by decide)).2 g hg).2⟩⟩,
    ⟨(checkDoors_follows_rule (sample 5 [10] .Open .Open) ⟨5⟩ rfl (by decide)).1 rfl,
      fun g hg =>
        ⟨((checkDoors_follows_rule (sample 5 [10] .Open .Open) ⟨5⟩ rfl
            (by decide)).2 g hg).1,
          congrArg ids ((checkDoors_follows_rule (sample 5 [10] .Open .Open) ⟨5⟩ rfl
            (by decide)).2 g hg).2⟩⟩,
    ⟨(checkDoors_follows_rule (sample 5 [1] .Closed .Open) ⟨5⟩ rfl (by decide)).1 rfl,
      fun g hg =>
        ⟨((checkDoors_follows_rule (sample 5 [1] .Closed .Open) ⟨5⟩ rfl
            (by decide)).2 g hg).1,
          congrArg ids ((checkDoors_follows_rule (sample 5 [1] .Closed .Open) ⟨5⟩ rfl
            (by decide)).2 g hg).2⟩⟩⟩

/-- C3: in every state reached by `Run` on a running manager (after `RunPrep`)
with a sorted roster, that is after the initial door check and any sequence of
loop events (recognize, forget of a present or an absent id, a ball throw that
finds a target, a drain request, a stop), the stored pair
`(leftDoor, rightDoor)` is the rule of section 4.3 applied to the own id and
the ids of the current roster, and one more `checkDoors` returns the same
state, so that it changes nothing and sends no notification. -/
theorem doors_in_step_with_roster (gm : V23Manager) (me : Player) (events : List Event)
    (g : V23Manager) (hrun : gm.isRunning = true) (hme : gm.myself = some me)
    (hs : List.Sorted (· ≤ ·) (ids gm.players))
    (hreach : Run gm events = .done g) :
    (g.leftDoor, g.rightDoor) = doorRule me.id (ids g.players) ∧
    checkDoors g = .done g := by
  unfold Run at hreach
  cases hc : checkDoors gm with
  | done g0 =>
    rw [hc] at hreach
    simp only at hreach
    have hg0 := checkDoors_done gm g0 me hme hc
    have e1 : g0.isRunning = true := by rw [hg0]; exact hrun
    have e2 : g0.myself = some me := by rw [hg0]; exact hme
    have e3 : List.Sorted (· ≤ ·) (ids g0.players) := by rw [hg0]; exact hs
    have e4 : (g0.leftDoor, g0.rightDoor) = doorTargets me.id g0.players := by rw [hg0]
    obtain ⟨i1, i2, i3⟩ := loop_invariant me events g0 g e1 e2 e3 e4 hreach
    exact ⟨by rw [← doorTargets_eq_doorRule me.id g.players i2]; exact i3,
      checkDoors_in_step g me i1 i3⟩
  | panic msg g0 =>
    rw [hc] at hreach
    cases hreach

/-- Instance of C3: own id 5 and the roster `[3]`; the loop takes a recognize
of 7, a throw to the right, a forget of 3, a forget of the absent id 4 and a
drain request, and ends with the doors `(Closed, Open)` for the roster `[7]`. -/
theorem doors_in_step_with_roster_witness :
    ids (Run (sample 5 [3] .Closed .Closed)
      [.recognize ⟨7⟩, .ballCommand ⟨⟨⟨5⟩, ⟨0, 0⟩, ⟨1, 1⟩⟩, .Right⟩ false,
        .forget ⟨3⟩, .forget ⟨4⟩, .noNewBallsOrPeople]).state.players = [7] ∧
    ((Run (sample 5 [3] .Closed .Closed)
      [.recognize ⟨7⟩, .ballCommand ⟨⟨⟨5⟩, ⟨0, 0⟩, ⟨1, 1⟩⟩, .Right⟩ false,
        .forget ⟨3⟩, .forget ⟨4⟩, .noNewBallsOrPeople]).state.leftDoor,
     (Run (sample 5 [3] .Closed .Closed)
      [.recognize ⟨7⟩, .ballCommand ⟨⟨⟨5⟩, ⟨0, 0⟩, ⟨1, 1⟩⟩, .Right⟩ false,
        .forget ⟨3⟩, .forget ⟨4⟩, .noNewBallsOrPeople]).state.rightDoor) =
      (.Closed, .Open) ∧
    checkDoors (Run (sample 5 [3] .Closed .Closed)
      [.recognize ⟨7⟩, .ballCommand ⟨⟨⟨5⟩, ⟨0, 0⟩, ⟨1, 1⟩⟩, .Right⟩ false,
        .forget ⟨3⟩, .forget ⟨4⟩, .noNewBallsOrPeople]).state =
      .done (Run (sample 5 [3] .Closed .Closed)
      [.recognize ⟨7⟩, .ballCommand ⟨⟨⟨5⟩, ⟨0, 0⟩, ⟨1, 1⟩⟩, .Right⟩ false,
        .forget ⟨3⟩, .forget ⟨4⟩, .noNewBallsOrPeople]).state :=
  ⟨rfl,
    (doors_in_step_with_roster (sample 5 [3] .Closed .Closed) ⟨5⟩
      [.recognize ⟨7⟩, .ballCommand ⟨⟨⟨5⟩, ⟨0, 0⟩, ⟨1, 1⟩⟩, .Right⟩ false,
        .forget ⟨3⟩, .forget ⟨4⟩, .noNewBallsOrPeople] _ rfl rfl (by decide) rfl).1,
    (doors_in_step_with_roster (sample 5 [3] .Closed .Closed) ⟨5⟩
      [.recognize ⟨7⟩, .ballCommand ⟨⟨⟨5⟩, ⟨0, 0⟩, ⟨1, 1⟩⟩, .Right⟩ false,
        .forget ⟨3⟩, .forget ⟨4⟩, .noNewBallsOrPeople] _ rfl rfl (by decide) rfl).2⟩

/-- C4: for every roster, own id and ball command, with `k` the insertion
index of the own id: a throw to the left calls `Accept` on exactly the entry
at `k - 1` when `k ≥ 1`, and panics with `Nobody on left!` without any call
when `k = 0`; a throw to the right calls `Accept` on exactly the entry at `k`
when `k ≤ len - 1`, and panics with `Nobody on right!` without any call when
`k = len`.  A call that is made is the only change to the manager, and the
throw returns unless that call fails. -/
theorem throwBall_routes (gm : V23Manager) (me : Player) (bc : BallCommand)
    (acceptErr : Bool) (hme : gm.myself = some me) :
    (bc.D = .Left → 1 ≤ findInsertion gm.players me →
      ∃ vp, gm.players[findInsertion gm.players me - 1]? = some vp ∧
        (throwBall gm bc acceptErr).state =
          { gm with rpcs := gm.rpcs ++ [Rpc.Accept vp (serializeBall bc.B)] } ∧
        (throwBall gm bc acceptErr).returned = !acceptErr) ∧
    (bc.D = .Left → findInsertion gm.players me = 0 →
      throwBall gm bc acceptErr = .panic nobodyOnLeft gm) ∧
    (bc.D = .Right →
      (findInsertion gm.players me : Int) ≤ (gm.players.length : Int) - 1 →
      ∃ vp, gm.players[findInsertion gm.players me]? = some vp ∧
        (throwBall gm bc acceptErr).state =
          { gm with rpcs := gm.rpcs ++ [Rpc.Accept vp (serializeBall bc.B)] } ∧
        (throwBall gm bc acceptErr).returned = !acceptErr) ∧
    (bc.D = .Right → findInsertion gm.players me = gm.players.length →
      throwBall gm bc acceptErr = .panic nobodyOnRight gm) := by
  refine ⟨?_, ?_, ?_, ?_⟩
  · intro hL hk
    obtain ⟨vp, hget, heq⟩ := throwBall_left_target gm me bc acceptErr hme hL hk
    refine ⟨vp, hget, ?_, ?_⟩
    · rw [heq]
      exact (sendBallRpc_state gm bc vp acceptErr).1
    · rw [heq]
      exact (sendBallRpc_state gm bc vp acceptErr).2
  · intro hL hk
    exact throwBall_left_none gm me bc acceptErr hme hL hk
  · intro hR hk
    have hk2 : findInsertion gm.players me < gm.players.length := by omega
    obtain ⟨vp, hget, heq⟩ := throwBall_right_target gm me bc acceptErr hme hR hk2
    refine ⟨vp, hget, ?_, ?_⟩
    · rw [heq]
      exact (sendBallRpc_state gm bc vp acceptErr).1
    · rw [heq]
      exact (sendBallRpc_state gm bc vp acceptErr).2
  · intro hR hk
    exact throwBall_right_none gm me bc acceptErr hme hR hk

/-- Instance of C4: with own id 5 and roster `[3, 7]` the insertion index is 1
and a throw to the left goes to the entry of player 3; with roster `[10]` the
own id is leftmost, and a throw to the left panics with the call log as it
was. -/
theorem throwBall_routes_witness :
    (∃ vp, (sample 5 [3, 7] .Open .Open).players[0]? = some vp ∧
      (throwBall (sample 5 [3, 7] .Open .Open) ⟨⟨⟨5⟩, ⟨0, 0⟩, ⟨1, 1⟩⟩, .Left⟩ false).state =
        { sample 5 [3, 7] .Open .Open with
          rpcs := [Rpc.Accept vp (serializeBall ⟨⟨5⟩, ⟨0, 0⟩, ⟨1, 1⟩⟩)] } ∧
      (throwBall (sample 5 [3, 7] .Open .Open) ⟨⟨⟨5⟩, ⟨0, 0⟩, ⟨1, 1⟩⟩, .Left⟩ false).returned =
        true) ∧
    throwBall (sample 5 [10] .Closed .Open) ⟨⟨⟨5⟩, ⟨0, 0⟩, ⟨1, 1⟩⟩, .Left⟩ false =
      .panic nobodyOnLeft (sample 5 [10] .Closed .Open) :=
  ⟨(throwBall_routes (sample 5 [3, 7] .Open .Open) ⟨5⟩ ⟨⟨⟨5⟩, ⟨0, 0⟩, ⟨1, 1⟩⟩, .Left⟩ false
      rfl).1 rfl (by decide),
    (throwBall_routes (sample 5 [10] .Closed .Open) ⟨5⟩ ⟨⟨⟨5⟩, ⟨0, 0⟩, ⟨1, 1⟩⟩, .Left⟩ false
      rfl).2.1 rfl rfl⟩

/-- C5: for every roster sorted ascending by id (strictly or not) and every
own id that is not in the roster, a throw whose `Accept` call goes to the
entry `vp` has picked the nearest neighbour: to the left, `vp` has the
greatest roster id below the own id; to the right, `vp` has the smallest
roster id above the own id; no roster id lies strictly between the own id and
the id of `vp`. -/
theorem throwBall_nearest_neighbor (gm : V23Manager) (me : Player) (bc : BallCommand)
    (acceptErr : Bool) (vp : vPlayer) (wb : WireBall)
    (hme : gm.myself = some me) (hs : List.Sorted (· ≤ ·) (ids gm.players))
    (hnot : me.id ∉ ids gm.players)
    (hsent : (throwBall gm bc acceptErr).state.rpcs = gm.rpcs ++ [Rpc.Accept vp wb]) :
    vp ∈ gm.players ∧
    (bc.D = .Left →
      vp.p.id < me.id ∧
      (∀ m ∈ gm.players, m.p.id < me.id → m.p.id ≤ vp.p.id) ∧
      (∀ m ∈ gm.players, ¬ (vp.p.id < m.p.id ∧ m.p.id < me.id))) ∧
    (bc.D = .Right →
      me.id < vp.p.id ∧
      (∀ m ∈ gm.players, me.id < m.p.id → vp.p.id ≤ m.p.id) ∧
      (∀ m ∈ gm.players, ¬ (me.id < m.p.id ∧ m.p.id < vp.p.id))) := by
  obtain ⟨hleft, hright⟩ := throwBall_sent_target gm me bc acceptErr vp wb hme hsent
  have htake := findInsertion_take_le gm.players me
  have hdrop := findInsertion_drop_lt gm.players me hs
  have hmem : vp ∈ gm.players := by
    cases hD : bc.D with
    | Left => exact List.getElem?_mem (hleft hD).2
    | Right => exact List.getElem?_mem (hright hD)
  refine ⟨hmem, ?_, ?_⟩
  · intro hL
    obtain ⟨hk, hget⟩ := hleft hL
    obtain ⟨hsplit, -⟩ := getElem?_split gm.players _ vp hget
    obtain ⟨hbefore, -⟩ := sorted_around_index gm.players _ vp hs hget
    have hk1 : findInsertion gm.players me - 1 + 1 = findInsertion gm.players me := by omega
    rw [hk1] at hsplit
    have hvp : vp.p.id ≤ me.id := htake vp (by rw [hsplit]; simp)
    have hne : vp.p.id ≠ me.id := by
      intro he
      apply hnot
      rw [← he]
      exact List.mem_map_of_mem _ hmem
    have hgreatest : ∀ m ∈ gm.players, m.p.id < me.id → m.p.id ≤ vp.p.id := by
      intro m hm hlt
      rcases mem_take_or_drop gm.players (findInsertion gm.players me) m hm with h | h
      · rw [hsplit] at h
        rcases List.mem_append.mp h with h | h
        · exact hbefore m h
        · simp only [List.mem_singleton] at h
          rw [h]
      · have := hdrop m h
        omega
    refine ⟨by omega, hgreatest, ?_⟩
    intro m hm hbetween
    have := hgreatest m hm hbetween.2
    omega
  · intro hR
    have hget := hright hR
    obtain ⟨-, hsplit⟩ := getElem?_split gm.players _ vp hget
    obtain ⟨-, hafter⟩ := sorted_around_index gm.players _ vp hs hget
    have hvp : me.id < vp.p.id := hdrop vp (by rw [hsplit]; simp)
    have hsmallest : ∀ m ∈ gm.players, me.id < m.p.id → vp.p.id ≤ m.p.id := by
      intro m hm hlt
      rcases mem_take_or_drop gm.players (findInsertion gm.players me) m hm with h | h
      · have := htake m h
        omega
      · rw [hsplit] at h
        rcases List.mem_cons.mp h with h | h
        · rw [h]
        · exact hafter m h
    refine ⟨hvp, hsmallest, ?_⟩
    intro m hm hbetween
    have := hsmallest m hm hbetween.1
    omega

/-- Instance of C5: own id 5 and roster `[3, 7, 9]`; a throw to the right
goes to the entry of player 7, the smallest roster id above 5, and a throw to
the left goes to the entry of player 3. -/
theorem throwBall_nearest_neighbor_witness :
    (entryFor "croupier" ⟨7⟩ ∈ (sample 5 [3, 7, 9] .Open .Open).players ∧
      (5 : Int) < (entryFor "croupier" ⟨7⟩).p.id ∧
      ∀ m ∈ (sample 5 [3, 7, 9] .Open .Open).players,
        (5 : Int) < m.p.id → (entryFor "croupier" ⟨7⟩).p.id ≤ m.p.id) ∧
    ((entryFor "croupier" ⟨3⟩).p.id < (5 : Int) ∧
      ∀ m ∈ (sample 5 [3, 7, 9] .Open .Open).players,
        m.p.id < (5 : Int) → m.p.id ≤ (entryFor "croupier" ⟨3⟩).p.id) :=
  ⟨⟨(throwBall_nearest_neighbor (sample 5 [3, 7, 9] .Open .Open) ⟨5⟩
        ⟨⟨⟨5⟩, ⟨0, 0⟩, ⟨1, 1⟩⟩, .Right⟩ false (entryFor "croupier" ⟨7⟩)
        (serializeBall ⟨⟨5⟩, ⟨0, 0⟩, ⟨1, 1⟩⟩) rfl (by decide) (by decide) rfl).1,
      ((throwBall_nearest_neighbor (sample 5 [3, 7, 9] .Open .Open) ⟨5⟩
        ⟨⟨⟨5⟩, ⟨0, 0⟩, ⟨1, 1⟩⟩, .Right⟩ false (entryFor "croupier" ⟨7⟩)
        (serializeBall ⟨⟨5⟩, ⟨0, 0⟩, ⟨1, 1⟩⟩) rfl (by decide) (by decide) rfl).2.2 rfl).1,
      ((throwBall_nearest_neighbor (sample 5 [3, 7, 9] .Open .Open) ⟨5⟩
        ⟨⟨⟨5⟩, ⟨0, 0⟩, ⟨1, 1⟩⟩, .Right⟩ false (entryFor "croupier" ⟨7⟩)
        (serializeBall ⟨⟨5⟩, ⟨0, 0⟩, ⟨1, 1⟩⟩) rfl (by decide) (by decide) rfl).2.2 rfl).2.1⟩,
    ⟨((throwBall_nearest_neighbor (sample 5 [3, 7, 9] .Open .Open) ⟨5⟩
        ⟨⟨⟨5⟩, ⟨0, 0⟩, ⟨1, 1⟩⟩, .Left⟩ false (entryFor "croupier" ⟨3⟩)
        (serializeBall ⟨⟨5⟩, ⟨0, 0⟩, ⟨1, 1⟩⟩) rfl (by decide) (by decide) rfl).2.1 rfl).1,
      ((throwBall_nearest_neighbor (sample 5 [3, 7, 9] .Open .Open) ⟨5⟩
        ⟨⟨⟨5⟩, ⟨0, 0⟩, ⟨1, 1⟩⟩, .Left⟩ false (entryFor "croupier" ⟨3⟩)
        (serializeBall ⟨⟨5⟩, ⟨0, 0⟩, ⟨1, 1⟩⟩) rfl (by decide) (by decide) rfl).2.1 rfl).2.1⟩⟩

/-- C6, as stated, fails: with own id 5 and the sorted roster `[5]`,
`checkDoors` returns with the right door Open, but the insertion index is 1,
the length of the roster, so there is no target on the right and a throw to
the right panics with `Nobody on right!`. -/
theorem open_right_door_without_target :
    List.Sorted (· ≤ ·) (ids (sample 5 [5] .Closed .Closed).players) ∧
    (checkDoors (sample 5 [5] .Closed .Closed)).returned = true ∧
    (checkDoors (sample 5 [5] .Closed .Closed)).state.rightDoor = .Open ∧
    ¬ ((findInsertion (checkDoors (sample 5 [5] .Closed .Closed)).state.players ⟨5⟩ : Int) ≤
      ((checkDoors (sample 5 [5] .Closed .Closed)).state.players.length : Int) - 1) ∧
    throwBall (checkDoors (sample 5 [5] .Closed .Closed)).state
        ⟨⟨⟨5⟩, ⟨0, 0⟩, ⟨1, 1⟩⟩, .Right⟩ false =
      .panic nobodyOnRight (checkDoors (sample 5 [5] .Closed .Closed)).state := by
  refine ⟨by decide, rfl, rfl, by decide, rfl⟩

/-- C6 (amended): for every own id and every roster sorted ascending by id,
`checkDoors` returns when the door channel is usable, and after it the left
door is Open iff a throw to the left has a target (`k ≥ 1`), and the right
door is Closed only if a throw to the right has none (`k = len`); when the
largest roster id differs from the own id, the right door is Open iff a throw
to the right has a target (`k ≤ len - 1`).  So a throw toward a Closed door
always panics with `Nobody on ...`, a throw toward an Open left door always
calls `Accept`, and a throw toward an Open right door calls `Accept` when the
largest roster id differs from the own id. -/
theorem doors_agree_with_throw_targets (gm : V23Manager) (me : Player)
    (hme : gm.myself = some me) (hs : List.Sorted (· ≤ ·) (ids gm.players)) :
    (gm.chDoorCommand = .ready → (checkDoors gm).returned = true) ∧
    (∀ g, checkDoors gm = .done g →
      (g.leftDoor = .Open ↔ 1 ≤ findInsertion g.players me) ∧
      (g.rightDoor = .Closed → findInsertion g.players me = g.players.length) ∧
      ((∀ m, g.players.getLast? = some m → m.p.id ≠ me.id) →
        (g.rightDoor = .Open ↔
          (findInsertion g.players me : Int) ≤ (g.players.length : Int) - 1)) ∧
      (∀ bc acceptErr, bc.D = .Left → g.leftDoor = .Closed →
        throwBall g bc acceptErr = .panic nobodyOnLeft g) ∧
      (∀ bc acceptErr, bc.D = .Left → g.leftDoor = .Open →
        ∃ vp, (throwBall g bc acceptErr).state.rpcs =
          g.rpcs ++ [Rpc.Accept vp (serializeBall bc.B)]) ∧
      (∀ bc acceptErr, bc.D = .Right → g.rightDoor = .Closed →
        throwBall g bc acceptErr = .panic nobodyOnRight g) ∧
      ((∀ m, g.players.getLast? = some m → m.p.id ≠ me.id) →
        ∀ bc acceptErr, bc.D = .Right → g.rightDoor = .Open →
          ∃ vp, (throwBall g bc acceptErr).state.rpcs =
            g.rpcs ++ [Rpc.Accept vp (serializeBall bc.B)])) := by
  constructor
  · intro hc
    rw [checkDoors_ready gm me hme hc]
    rfl
  · intro g hg
    have hg1 := checkDoors_done gm g me hme hg
    have hp : g.players = gm.players := by rw [hg1]
    have hgme : g.myself = some me := by rw [hg1]; exact hme
    have hl : g.leftDoor = (doorTargets me.id g.players).1 := by rw [hg1]
    have hr : g.rightDoor = (doorTargets me.id g.players).2 := by rw [hg1]
    have hgs : List.Sorted (· ≤ ·) (ids g.players) := by rw [hp]; exact hs
    have hle := findInsertion_le_length g.players me
    have hleft : g.leftDoor = .Open ↔ 1 ≤ findInsertion g.players me := by
      rw [hl]
      exact doorTargets_left_open_iff me g.players
    have hclosed : g.rightDoor = .Closed → findInsertion g.players me = g.players.length := by
      intro h
      rw [hr] at h
      exact doorTargets_right_closed me g.players hgs h
    have hopen : (∀ m, g.players.getLast? = some m → m.p.id ≠ me.id) →
        g.rightDoor = .Open → findInsertion g.players me < g.players.length := by
      intro hne h
      rw [hr] at h
      exact doorTargets_right_open me g.players hne h
    refine ⟨hleft, hclosed, ?_, ?_, ?_, ?_, ?_⟩
    · intro hne
      constructor
      · intro h
        have := hopen hne h
        omega
      · intro h
        by_contra hno
        have := hclosed ((doorState_closed_iff _).mpr hno)
        omega
    · intro bc acceptErr hL hc
      apply throwBall_left_none g me bc acceptErr hgme hL
      have : ¬ 1 ≤ findInsertion g.players me :=
        fun h => (doorState_closed_iff _).mp hc (hleft.mpr h)
      omega
    · intro bc acceptErr hL ho
      obtain ⟨vp, -, heq⟩ := throwBall_left_target g me bc acceptErr hgme hL (hleft.mp ho)
      exact ⟨vp, by rw [heq, (sendBallRpc_state g bc vp acceptErr).1]⟩
    · intro bc acceptErr hR hc
      exact throwBall_right_none g me bc acceptErr hgme hR (hclosed hc)
    · intro hne bc acceptErr hR ho
      obtain ⟨vp, -, heq⟩ := throwBall_right_target g me bc acceptErr hgme hR (hopen hne ho)
      exact ⟨vp, by rw [heq, (sendBallRpc_state g bc vp acceptErr).1]⟩

/-- Instance of C6 (amended): own id 5 and roster `[3, 7]`, doors closed
before; `checkDoors` returns and both doors agree with the throw targets. -/
theorem doors_agree_with_throw_targets_witness :
    (checkDoors (sample 5 [3, 7] .Closed .Closed)).returned = true ∧
    ((checkDoors (sample 5 [3, 7] .Closed .Closed)).state.leftDoor = .Open ↔
      1 ≤ findInsertion (checkDoors (sample 5 [3, 7] .Closed .Closed)).state.players ⟨5⟩) ∧
    ((checkDoors (sample 5 [3, 7] .Closed .Closed)).state.rightDoor = .Open ↔
      (findInsertion (checkDoors (sample 5 [3, 7] .Closed .Closed)).state.players ⟨5⟩ : Int) ≤
        ((checkDoors (sample 5 [3, 7] .Closed .Closed)).state.players.length : Int) - 1) :=
  ⟨(doors_agree_with_throw_targets (sample 5 [3, 7] .Closed .Closed) ⟨5⟩ rfl
      (by decide)).1 rfl,
    ((doors_agree_with_throw_targets (sample 5 [3, 7] .Closed .Closed) ⟨5⟩ rfl
      (by decide)).2 _ rfl).1,
    ((doors_agree_with_throw_targets (sample 5 [3, 7] .Closed .Closed) ⟨5⟩ rfl
      (by decide)).2 _ rfl).2.2.1 (by decide)⟩

/-- C7: for every roster sorted ascending by id and every player `p`, also
one whose id is already in the roster, `Recognize(p)` followed at once by
`Forget(p)` returns when the door channel is usable, and whenever it returns
the id sequence of the roster is the one before the `Recognize` and the doors
recomputed by the `Forget` are the ones the rule of section 4.3 gives for that
roster: the same `(leftDoor, rightDoor)` as before the `Recognize`, the doors
having been in step with the roster then. -/
theorem recognize_then_forget_round_trip (gm : V23Manager) (me p : Player)
    (hme : gm.myself = some me) (hs : List.Sorted (· ≤ ·) (ids gm.players)) :
    (gm.chDoorCommand = .ready →
      ((recognizeOther gm p).andThen (fun g1 => forgetOther g1 p)).returned = true) ∧
    (∀ g, (recognizeOther gm p).andThen (fun g1 => forgetOther g1 p) = .done g →
      ids g.players = ids gm.players ∧
      (g.leftDoor, g.rightDoor) = doorRule me.id (ids gm.players) ∧
      ((gm.leftDoor, gm.rightDoor) = doorRule me.id (ids gm.players) →
        (g.leftDoor, g.rightDoor) = (gm.leftDoor, gm.rightDoor))) := by
  have hp1 := recognizeOther_players gm p
  have hf1 := recognizeOther_frame gm p
  constructor
  · intro hc
    have hret := recognizeOther_returns gm me p hme hc
    cases hr : recognizeOther gm p with
    | done g1 =>
      rw [hr] at hf1
      simp only [Outcome.state] at hf1
      simp only [Outcome.andThen]
      exact forgetOther_returns g1 me p (hf1.1.trans hme) (hf1.2.trans hc)
    | panic msg g1 =>
      rw [hr] at hret
      cases hret
  · intro g hg
    cases hr : recognizeOther gm p with
    | done g1 =>
      rw [hr] at hf1 hp1 hg
      simp only [Outcome.state] at hf1 hp1
      simp only [Outcome.andThen] at hg
      rw [forgetOther_eq] at hg
      have hg2 := checkDoors_done _ g me (by exact hf1.1.trans hme) hg
      have hids : ids g.players = ids gm.players := by
        rw [hg2]
        simp only
        rw [hp1]
        exact ids_eraseFirst_insertSorted (entryFor gm.rootName p) gm.players hs
      have hdoors : (g.leftDoor, g.rightDoor) = doorTargets me.id g.players := by
        rw [hg2]
      have hrule : (g.leftDoor, g.rightDoor) = doorRule me.id (ids gm.players) := by
        rw [hdoors, doorTargets_eq_doorRule me.id g.players (by rw [hids]; exact hs), hids]
      exact ⟨hids, hrule, fun hbefore => hrule.trans hbefore.symm⟩
    | panic msg g1 =>
      rw [hr] at hg
      cases hg

/-- Instance of C7: own id 5, roster `[3, 5, 7]` with the doors `(Open, Open)`
in step; `Recognize` then `Forget` of a player with the id 5, which is already
in the roster, returns with the ids `[3, 5, 7]` and the doors `(Open, Open)`. -/
theorem recognize_then_forget_round_trip_witness :
    ((recognizeOther (sample 5 [3, 5, 7] .Open .Open) ⟨5⟩).andThen
      (fun g1 => forgetOther g1 ⟨5⟩)).returned = true ∧
    ids ((recognizeOther (sample 5 [3, 5, 7] .Open .Open) ⟨5⟩).andThen
      (fun g1 => forgetOther g1 ⟨5⟩)).state.players = [3, 5, 7] ∧
    (((recognizeOther (sample 5 [3, 5, 7] .Open .Open) ⟨5⟩).andThen
        (fun g1 => forgetOther g1 ⟨5⟩)).state.leftDoor,
      ((recognizeOther (sample 5 [3, 5, 7] .Open .Open) ⟨5⟩).andThen
        (fun g1 => forgetOther g1 ⟨5⟩)).state.rightDoor) = (.Open, .Open) :=
  ⟨(recognize_then_forget_round_trip (sample 5 [3, 5, 7] .Open .Open) ⟨5⟩ ⟨5⟩ rfl
      (by decide)).1 rfl,
    ((recognize_then_forget_round_trip (sample 5 [3, 5, 7] .Open .Open) ⟨5⟩ ⟨5⟩ rfl
      (by decide)).2 _ rfl).1,
    ((recognize_then_forget_round_trip (sample 5 [3, 5, 7] .Open .Open) ⟨5⟩ ⟨5⟩ rfl
      (by decide)).2 _ rfl).2.2 rfl⟩

/-- C8: for every manager with a usable door channel and every door command:
when the door on the commanded side is already in the commanded state,
`assureDoor` returns the manager as it was, so nothing changes and nothing is
sent; otherwise it returns the manager with that side set to the commanded
state, every other field (the other door, the roster) as before, and exactly
one notification, the command itself, added to what was sent. -/
theorem assureDoor_effect (gm : V23Manager) (dc : DoorCommand)
    (hc : gm.chDoorCommand = .ready) :
    (doorOn gm dc.D = dc.S → assureDoor gm dc = .done gm) ∧
    (doorOn gm dc.D ≠ dc.S →
      assureDoor gm dc =
        .done { setDoor gm dc.D dc.S with doorsSent := gm.doorsSent ++ [dc] }) :=
  ⟨assureDoor_same gm dc, assureDoor_change gm dc hc⟩

/-- Instance of C8: on a new manager, whose doors are closed, the command
`(Open, Right)` opens the right door and sends that one command, and the
command `(Closed, Left)` changes nothing. -/
theorem assureDoor_effect_witness :
    assureDoor (NewV23Manager "croupier") ⟨.Open, .Right⟩ =
      .done { NewV23Manager "croupier" with
        rightDoor := .Open, doorsSent := [⟨.Open, .Right⟩] } ∧
    assureDoor (NewV23Manager "croupier") ⟨.Closed, .Left⟩ =
      .done (NewV23Manager "croupier") :=
  ⟨(assureDoor_effect (NewV23Manager "croupier") ⟨.Open, .Right⟩ rfl).2 (by decide),
    (assureDoor_effect (NewV23Manager "croupier") ⟨.Closed, .Left⟩ rfl).1 rfl⟩

/-- C9, as stated, fails: on a new manager the left door is Closed, and two
calls of `assureDoor` with the command `(Closed, Left)` return the manager as
it was, with no notification sent at all. -/
theorem assureDoor_twice_sends_nothing :
    (assureDoor (NewV23Manager "croupier") ⟨.Closed, .Left⟩).andThen
      (fun g => assureDoor g ⟨.Closed, .Left⟩) = .done (NewV23Manager "croupier") ∧
    ((assureDoor (NewV23Manager "croupier") ⟨.Closed, .Left⟩).andThen
      (fun g => assureDoor g ⟨.Closed, .Left⟩)).state.doorsSent.length = 0 :=
  ⟨rfl, rfl⟩

/-- C9 (amended): for every manager and every door command `dc`, the first
`assureDoor(dc)` returns when the door channel is usable, and whenever it
returns, a second `assureDoor(dc)` returns the state left by the first, so
the second call sends nothing; the two calls together send one notification,
`dc`, when the door on that side differed from the commanded state before the
first call, and none when it already had it. -/
theorem assureDoor_twice (gm : V23Manager) (dc : DoorCommand) :
    (gm.chDoorCommand = .ready → (assureDoor gm dc).returned = true) ∧
    (∀ g1, assureDoor gm dc = .done g1 →
      assureDoor g1 dc = .done g1 ∧
      (assureDoor gm dc).andThen (fun g => assureDoor g dc) = .done g1 ∧
      g1.doorsSent = gm.doorsSent ++ (if doorOn gm dc.D = dc.S then [] else [dc])) := by
  constructor
  · intro hc
    by_cases h : doorOn gm dc.D = dc.S
    · rw [assureDoor_same gm dc h]
      rfl
    · rw [assureDoor_change gm dc hc h]
      rfl
  · intro g1 h1
    obtain ⟨hset, hsent⟩ := assureDoor_done gm g1 dc h1
    have h2 := assureDoor_same g1 dc hset
    refine ⟨h2, ?_, hsent⟩
    rw [h1]
    exact h2

/-- Instance of C9 (amended): on a new manager two calls with `(Open, Left)`
send that command once. -/
theorem assureDoor_twice_witness :
    (assureDoor (NewV23Manager "croupier") ⟨.Open, .Left⟩).returned = true ∧
    ((assureDoor (NewV23Manager "croupier") ⟨.Open, .Left⟩).andThen
      (fun g => assureDoor g ⟨.Open, .Left⟩)).state.doorsSent = [⟨.Open, .Left⟩] :=
  ⟨(assureDoor_twice (NewV23Manager "croupier") ⟨.Open, .Left⟩).1 rfl,
    (congrArg (fun o => o.state.doorsSent)
      ((assureDoor_twice (NewV23Manager "croupier") ⟨.Open, .Left⟩).2 _ rfl).2.1).trans
      (((assureDoor_twice (NewV23Manager "croupier") ⟨.Open, .Left⟩).2 _ rfl).2.2)⟩

/-- C10: for every roster and every player `p`, present already or not,
`Recognize(p)` leaves a roster one entry longer with the entry of `p` at the
index `k = findInsertion(p)` and the previous entries around it in their
previous order (removing index `k` gives back the old roster); every entry
before index `k` has an id `≤ p.id`, and when the roster was sorted ascending
every entry after index `k` has an id `> p.id` and the new roster is sorted
ascending. -/
theorem recognizeOther_inserts (gm : V23Manager) (p : Player) :
    (recognizeOther gm p).state.players.length = gm.players.length + 1 ∧
    (recognizeOther gm p).state.players[findInsertion gm.players p]? =
      some (entryFor gm.rootName p) ∧
    (entryFor gm.rootName p).p = p ∧
    (recognizeOther gm p).state.players.eraseIdx (findInsertion gm.players p) = gm.players ∧
    (recognizeOther gm p).state.players =
      gm.players.take (findInsertion gm.players p) ++
        entryFor gm.rootName p :: gm.players.drop (findInsertion gm.players p) ∧
    (∀ m ∈ (recognizeOther gm p).state.players.take (findInsertion gm.players p),
      m.p.id ≤ p.id) ∧
    (List.Sorted (· ≤ ·) (ids gm.players) →
      (∀ m ∈ (recognizeOther gm p).state.players.drop (findInsertion gm.players p + 1),
        p.id < m.p.id) ∧
      List.Sorted (· ≤ ·) (ids (recognizeOther gm p).state.players)) := by
  have hk := findInsertion_le_length gm.players p
  have hins : (recognizeOther gm p).state.players =
      gm.players.take (findInsertion gm.players p) ++
        entryFor gm.rootName p :: gm.players.drop (findInsertion gm.players p) := by
    rw [recognizeOther_players]
    exact (take_findInsertion gm.players (entryFor gm.rootName p)).symm
  obtain ⟨h1, h2, h3, h4⟩ :=
    insertAt_facts gm.players (entryFor gm.rootName p) (findInsertion gm.players p) hk
  refine ⟨?_, ?_, rfl, ?_, hins, ?_, ?_⟩
  · rw [hins]
    simp only [List.length_append, List.length_cons, List.length_take, List.length_drop]
    omega
  · rw [hins]
    exact h1
  · rw [hins]
    exact h2
  · rw [hins, h3]
    exact findInsertion_take_le gm.players p
  · intro hs
    constructor
    · rw [hins, h4]
      exact findInsertion_drop_lt gm.players p hs
    · rw [recognizeOther_players]
      exact sorted_le_insertSorted _ _ hs

/-- Instance of C10: recognizing a player with the id 5 in the sorted roster
`[3, 5, 7]`, where the id is present already, gives the ids `[3, 5, 5, 7]`. -/
theorem recognizeOther_inserts_witness :
    ids (recognizeOther (sample 9 [3, 5, 7] .Open .Closed) ⟨5⟩).state.players =
      [3, 5, 5, 7] ∧
    (recognizeOther (sample 9 [3, 5, 7] .Open .Closed) ⟨5⟩).state.players[2]? =
      some (entryFor "croupier" ⟨5⟩) ∧
    List.Sorted (· ≤ ·)
      (ids (recognizeOther (sample 9 [3, 5, 7] .Open .Closed) ⟨5⟩).state.players) :=
  ⟨rfl,
    (recognizeOther_inserts (sample 9 [3, 5, 7] .Open .Closed) ⟨5⟩).2.1,
    ((recognizeOther_inserts (sample 9 [3, 5, 7] .Open .Closed) ⟨5⟩).2.2.2.2.2.2
      (by decide)).2⟩

/-- C11, as stated, fails: in the sorted roster with the ids `[5, 5]`, which
two `Recognize` of the id 5 leave, `Forget` of a player with the id 5 removes
one entry and the id 5 is still in the roster. -/
theorem forgotten_id_still_in_roster :
    ids (sample 9 [5, 5] .Open .Closed).players = [5, 5] ∧
    ids (forgetOther (sample 9 [5, 5] .Open .Closed) ⟨5⟩).state.players = [5] ∧
    (5 : Int) ∈ ids (forgetOther (sample 9 [5, 5] .Open .Closed) ⟨5⟩).state.players := by
  refine ⟨rfl, rfl, ?_⟩
  have h : ids (forgetOther (sample 9 [5, 5] .Open .Closed) ⟨5⟩).state.players = [5] := rfl
  rw [h]
  decide

/-- C11 (amended): for every roster and every player `p`: `Forget(p)` is a
door recompute on the manager with the new roster, in every case; when no
entry has the id of `p` the roster is unchanged; when some entry has it, the
first such entry is removed, so the roster is one entry shorter and all other
entries, later ones with the same id among them, stay in their previous
order; the id of `p` then occurs once less than before, and it is no longer
in the roster when it occurred at most once. -/
theorem forgetOther_removes_first (gm : V23Manager) (p : Player) :
    forgetOther gm p =
      checkDoors { gm with players := (forgetOther gm p).state.players } ∧
    (p.id ∉ ids gm.players → (forgetOther gm p).state.players = gm.players) ∧
    (p.id ∈ ids gm.players →
      ∃ front m back, gm.players = front ++ m :: back ∧ m.p.id = p.id ∧
        (∀ b ∈ front, b.p.id ≠ p.id) ∧
        (forgetOther gm p).state.players = front ++ back ∧
        (forgetOther gm p).state.players.length + 1 = gm.players.length) ∧
    (ids (forgetOther gm p).state.players).count p.id = (ids gm.players).count p.id - 1 ∧
    ((ids gm.players).count p.id ≤ 1 → p.id ∉ ids (forgetOther gm p).state.players) := by
  have hp := forgetOther_players gm p
  refine ⟨?_, ?_, ?_, ?_, ?_⟩
  · rw [hp]
    exact forgetOther_eq gm p
  · intro h
    rw [hp]
    exact eraseFirst_of_not_mem p.id gm.players h
  · intro h
    obtain ⟨front, m, back, hps, hm, hfront, herase⟩ := eraseFirst_split p.id gm.players h
    refine ⟨front, m, back, hps, hm, hfront, by rw [hp]; exact herase, ?_⟩
    rw [hp, herase, hps]
    simp only [List.length_append, List.length_cons]
    omega
  · rw [hp]
    exact count_ids_eraseFirst p.id gm.players
  · intro h
    have hc := count_ids_eraseFirst p.id gm.players
    rw [← hp] at hc
    intro hin
    have := List.count_pos_iff.mpr hin
    omega

/-- Instance of C11 (amended): from the roster `[3, 5, 7]`, `Forget` of the id 5
leaves `[3, 7]` and `Forget` of the absent id 4 leaves `[3, 5, 7]`. -/
theorem forgetOther_removes_first_witness :
    ids (forgetOther (sample 9 [3, 5, 7] .Open .Closed) ⟨5⟩).state.players = [3, 7] ∧
    (5 : Int) ∉ ids (forgetOther (sample 9 [3, 5, 7] .Open .Closed) ⟨5⟩).state.players ∧
    (forgetOther (sample 9 [3, 5, 7] .Open .Closed) ⟨4⟩).state.players =
      (sample 9 [3, 5, 7] .Open .Closed).players :=
  ⟨rfl,
    (forgetOther_removes_first (sample 9 [3, 5, 7] .Open .Closed) ⟨5⟩).2.2.2.2 (by decide),
    (forgetOther_removes_first (sample 9 [3, 5, 7] .Open .Closed) ⟨4⟩).2.1 (by decide)⟩

/-- C17: for every finite sequence of Recognize and Forget operations applied
to an empty roster, Recognize of ids already present and Forget of absent ids
included, the ids of the roster are in non-decreasing order after every step,
that is after every initial part of the sequence; and when every Recognize of
the sequence is for an id not in the roster at that moment, the ids are
strictly increasing after every step, so no id occurs twice. -/
theorem roster_sorted_after_every_step (gm : V23Manager) (ops : List MemberOp)
    (hempty : gm.players = []) :
    (∀ n, List.Sorted (· ≤ ·) (ids (applyOps gm (ops.take n)).state.players)) ∧
    (freshRecognizes gm ops = true →
      ∀ n, List.Sorted (· < ·) (ids (applyOps gm (ops.take n)).state.players) ∧
        (ids (applyOps gm (ops.take n)).state.players).Nodup) := by
  have h0 : ids gm.players = [] := by simp [hempty, ids]
  constructor
  · intro n
    exact applyOps_sorted_le gm (ops.take n) (by simp [h0])
  · intro hf n
    have hs := applyOps_sorted_lt gm (ops.take n) (by simp [h0])
      (freshRecognizes_take gm ops n hf)
    exact ⟨hs, hs.nodup⟩

/-- Instance of C17: recognize 5, recognize 5 again, forget the absent id 9,
recognize 3, from an empty roster; after three steps the ids are `[5, 5]`, in
non-decreasing order. -/
theorem roster_sorted_after_every_step_witness :
    ids (applyOps (sample 1 [] .Closed .Closed)
      (List.take 3 [.recognize ⟨5⟩, .recognize ⟨5⟩, .forget ⟨9⟩,
        .recognize ⟨3⟩])).state.players = [5, 5] ∧
    List.Sorted (· ≤ ·) (ids (applyOps (sample 1 [] .Closed .Closed)
      (List.take 3 [.recognize ⟨5⟩, .recognize ⟨5⟩, .forget ⟨9⟩,
        .recognize ⟨3⟩])).state.players) ∧
    List.Sorted (· < ·) (ids (applyOps (sample 1 [] .Closed .Closed)
      (List.take 2 [.recognize ⟨5⟩, .forget ⟨9⟩, .recognize ⟨3⟩])).state.players) :=
  ⟨rfl,
    (roster_sorted_after_every_step (sample 1 [] .Closed .Closed)
      [.recognize ⟨5⟩, .recognize ⟨5⟩, .forget ⟨9⟩, .recognize ⟨3⟩] rfl).1 3,
    ((roster_sorted_after_every_step (sample 1 [] .Closed .Closed)
      [.recognize ⟨5⟩, .forget ⟨9⟩, .recognize ⟨3⟩] rfl).2 rfl 2).1⟩


/-- C12: on every manager that is not running yet, `Recognize(p)` returns
with nothing but the roster changed, so both doors are as before and no door
notification is sent; `RunPrep` on such a manager sends no door notification
and leaves the doors as they were, whatever ids were found and however it
ends; and when `RunPrep` has returned, the start of `Run` is one `checkDoors`,
which returns when the door channel is usable and whose result is the rule of
section 4.3 applied to the roster that holds all the deferred insertions. -/
theorem recognize_deferred_until_run (gm : V23Manager) (hrun : gm.isRunning = false) :
    (∀ p, (recognizeOther gm p).returned = true ∧
      (recognizeOther gm p).state =
        { gm with players := (recognizeOther gm p).state.players }) ∧
    (∀ me chBc helloErr, gm.myself = some me → List.Sorted (· ≤ ·) (ids gm.players) →
      (RunPrep gm chBc helloErr).state.doorsSent = gm.doorsSent ∧
      (RunPrep gm chBc helloErr).state.leftDoor = gm.leftDoor ∧
      (RunPrep gm chBc helloErr).state.rightDoor = gm.rightDoor ∧
      ∀ g, RunPrep gm chBc helloErr = .done g →
        List.Perm (ids g.players) (gm.initialPlayerNumbers ++ ids gm.players) ∧
        List.Sorted (· ≤ ·) (ids g.players) ∧
        Run g [] = checkDoors g ∧
        (gm.chDoorCommand = .ready → (Run g []).returned = true) ∧
        ∀ g2, Run g [] = .done g2 →
          (g2.leftDoor, g2.rightDoor) = doorRule me.id (ids g.players) ∧
          g2.players = g.players ∧
          g2.doorsSent = gm.doorsSent ++ doorDelta gm.leftDoor gm.rightDoor
            (doorRule me.id (ids g.players)).1 (doorRule me.id (ids g.players)).2) := by
  constructor
  · intro p
    rw [recognizeOther_not_running gm p hrun]
    exact ⟨rfl, rfl⟩
  · intro me chBc helloErr hme hs
    obtain ⟨c, -, hstate, -, -⟩ := RunPrep_spec gm me chBc helloErr hrun hme
    refine ⟨by rw [hstate], by rw [hstate], by rw [hstate], ?_⟩
    intro g hg
    rw [hg] at hstate
    simp only [Outcome.state] at hstate
    have hp : g.players = insertAll gm.rootName gm.players gm.initialPlayerNumbers := by
      rw [hstate]
    have hgme : g.myself = some me := by rw [hstate]; exact hme
    have hgs : List.Sorted (· ≤ ·) (ids g.players) := by
      rw [hp]
      exact sorted_insertAll _ _ _ hs
    have hrule := doorTargets_eq_doorRule me.id g.players hgs
    refine ⟨by rw [hp]; exact perm_ids_insertAll _ _ _, hgs, Run_nil g, ?_, ?_⟩
    · intro hc
      rw [Run_nil, checkDoors_ready g me hgme (by rw [hstate]; exact hc)]
      rfl
    · intro g2 hg2
      rw [Run_nil] at hg2
      have h2 := checkDoors_done g g2 me hgme hg2
      rw [hrule] at h2
      have hl : g.leftDoor = gm.leftDoor := by rw [hstate]
      have hr : g.rightDoor = gm.rightDoor := by rw [hstate]
      have hd : g.doorsSent = gm.doorsSent := by rw [hstate]
      rw [hl, hr, hd] at h2
      rw [h2]
      exact ⟨rfl, rfl, rfl⟩

/-- Instance of C12: own id 4, the ids 3, 1, 2 found; `RunPrep` returns with
the roster `[1, 2, 3]`, closed doors and nothing sent, and the door check of
`Run` then gives `(Open, Closed)` and sends the one command `(Open, Left)`. -/
theorem recognize_deferred_until_run_witness :
    (RunPrep (afterReady 4 [3, 1, 2] false) .ready (fun _ => false)).returned = true ∧
    ids (RunPrep (afterReady 4 [3, 1, 2] false) .ready (fun _ => false)).state.players =
      [1, 2, 3] ∧
    (RunPrep (afterReady 4 [3, 1, 2] false) .ready (fun _ => false)).state.doorsSent = [] ∧
    (∀ g2, Run (RunPrep (afterReady 4 [3, 1, 2] false) .ready (fun _ => false)).state [] =
        .done g2 →
      (g2.leftDoor, g2.rightDoor) = (.Open, .Closed) ∧
      g2.doorsSent = [⟨.Open, .Left⟩]) :=
  ⟨rfl, rfl,
    ((recognize_deferred_until_run (afterReady 4 [3, 1, 2] false) rfl).2 ⟨4⟩ .ready
      (fun _ => false) rfl (by decide)).1,
    fun g2 hg2 =>
      ⟨((((recognize_deferred_until_run (afterReady 4 [3, 1, 2] false) rfl).2 ⟨4⟩ .ready
          (fun _ => false) rfl (by decide)).2.2.2 _ rfl).2.2.2.2 g2 hg2).1,
        ((((recognize_deferred_until_run (afterReady 4 [3, 1, 2] false) rfl).2 ⟨4⟩ .ready
          (fun _ => false) rfl (by decide)).2.2.2 _ rfl).2.2.2.2 g2 hg2).2.2⟩⟩

/-- C14: on a manager that is not running yet and knows its own id, `RunPrep`
panics if and only if the manager is master and the ball channel given is not
nil, or it is not master and the `Recognize` call to some roster entry fails.
A master makes no `Recognize` call; another player calls `Recognize` with its
own id on the roster entries in roster order, once each, up to and including
the first call that fails and on no entry after it; `isRunning` is true
afterwards exactly when `RunPrep` has returned.  The roster then holds the
ids found in the directory. -/
theorem RunPrep_fails_iff (gm : V23Manager) (me : Player) (chBc : Chan)
    (helloErr : Nat → Bool) (hrun : gm.isRunning = false) (hme : gm.myself = some me) :
    ((RunPrep gm chBc helloErr).returned = false ↔
      (gm.isGameMaster = true ∧ chBc ≠ .nil) ∨
      (gm.isGameMaster = false ∧
        ∃ i, i < (RunPrep gm chBc helloErr).state.players.length ∧ helloErr i = true)) ∧
    (gm.isGameMaster = true → (RunPrep gm chBc helloErr).state.rpcs = gm.rpcs) ∧
    (gm.isGameMaster = false →
      ∃ c, c ≤ (RunPrep gm chBc helloErr).state.players.length ∧
        (RunPrep gm chBc helloErr).state.rpcs =
          gm.rpcs ++ ((RunPrep gm chBc helloErr).state.players.take c).map
            (fun vp => Rpc.Recognize vp ⟨toInt32 me.id⟩) ∧
        (∀ j, j + 1 < c → helloErr j = false) ∧
        ((RunPrep gm chBc helloErr).returned = true →
          c = (RunPrep gm chBc helloErr).state.players.length) ∧
        ((RunPrep gm chBc helloErr).returned = false → 1 ≤ c ∧ helloErr (c - 1) = true)) ∧
    ((RunPrep gm chBc helloErr).state.isRunning = true ↔
      (RunPrep gm chBc helloErr).returned = true) ∧
    List.Perm (ids (RunPrep gm chBc helloErr).state.players)
      (gm.initialPlayerNumbers ++ ids gm.players) := by
  obtain ⟨c, hc, hstate, hmaster, hother⟩ := RunPrep_spec gm me chBc helloErr hrun hme
  have hp : (RunPrep gm chBc helloErr).state.players =
      insertAll gm.rootName gm.players gm.initialPlayerNumbers := by rw [hstate]
  have hrpcs : (RunPrep gm chBc helloErr).state.rpcs = gm.rpcs ++
      ((insertAll gm.rootName gm.players gm.initialPlayerNumbers).take c).map
        (fun vp => Rpc.Recognize vp ⟨toInt32 me.id⟩) := by rw [hstate]
  have hrunning : (RunPrep gm chBc helloErr).state.isRunning =
      (RunPrep gm chBc helloErr).returned := by rw [hstate]
  rw [hp]
  refine ⟨?_, ?_, ?_, ?_, perm_ids_insertAll _ _ _⟩
  · by_cases hm : gm.isGameMaster = true
    · rw [(hmaster hm).2]
      constructor
      · intro h
        exact Or.inl ⟨hm, h⟩
      · intro h
        rcases h with h | h
        · exact h.2
        · rw [hm] at h
          cases h.1
    · have hm2 : gm.isGameMaster = false := by simpa using hm
      obtain ⟨-, hret, hfail⟩ := hother hm2
      constructor
      · intro h
        obtain ⟨h1, h2⟩ := hfail h
        exact Or.inr ⟨hm2, c - 1, by omega, h2⟩
      · intro h
        rcases h with h | h
        · exact absurd h.1 hm
        · obtain ⟨-, i, hi, hei⟩ := h
          cases hr : (RunPrep gm chBc helloErr).returned with
          | false => rfl
          | true =>
            have := (hret hr).2 i hi
            rw [this] at hei
            cases hei
  · intro hm
    rw [hrpcs, (hmaster hm).1]
    simp
  · intro hm2
    obtain ⟨hbefore, hret, hfail⟩ := hother hm2
    exact ⟨c, hc, hrpcs, hbefore, fun h => (hret h).1, hfail⟩
  · rw [hrunning]

/-- Instance of C14: own id 5, the ids 1, 2, 4 found, the second `Recognize`
call fails; `RunPrep` panics after calling the entries of the players 1 and 2,
and `isRunning` stays false.  A master given a ball channel panics without a
call. -/
theorem RunPrep_fails_iff_witness :
    (RunPrep (afterReady 5 [1, 2, 4] false) .ready (fun i => decide (i = 1))).returned =
      false ∧
    (RunPrep (afterReady 5 [1, 2, 4] false) .ready (fun i => decide (i = 1))).state.rpcs =
      [Rpc.Recognize (entryFor "croupier" ⟨1⟩) ⟨5⟩,
        Rpc.Recognize (entryFor "croupier" ⟨2⟩) ⟨5⟩] ∧
    ((RunPrep (afterReady 5 [1, 2, 4] false) .ready
        (fun i => decide (i = 1))).state.isRunning = true ↔
      (RunPrep (afterReady 5 [1, 2, 4] false) .ready (fun i => decide (i = 1))).returned =
        true) ∧
    (RunPrep (afterReady 999 [1, 2, 4] true) .ready (fun _ => false)).state.rpcs = [] ∧
    (RunPrep (afterReady 999 [1, 2, 4] true) .ready (fun _ => false)).returned = false :=
  ⟨rfl, rfl,
    (RunPrep_fails_iff (afterReady 5 [1, 2, 4] false) ⟨5⟩ .ready (fun i => decide (i = 1))
      rfl rfl).2.2.2.1,
    (RunPrep_fails_iff (afterReady 999 [1, 2, 4] true) ⟨999⟩ .ready (fun _ => false)
      rfl rfl).2.1 rfl,
    ((RunPrep_fails_iff (afterReady 999 [1, 2, 4] true) ⟨999⟩ .ready (fun _ => false)
      rfl rfl).1).mpr (Or.inl ⟨rfl, by decide⟩)⟩


/-- C13: whenever `IsReadyToRun` returns true, with `found` the ids that
`playerNumbers` has found in the directory: a player that is not master has
the own id 1 when nothing was found and otherwise one more than the maximum
of the ids found, and the own id is above every id found; a master has the
own id 999 whatever was found. -/
theorem own_id_above_discovered (gm g : V23Manager) (master : Bool) (env : Startup)
    (h : IsReadyToRun gm master env = .returned true g) :
    ∃ found, playerNumbers gm.rootName env.glob = .ok found ∧
      g.initialPlayerNumbers = sortInts found ∧
      (master = false →
        ∃ me, g.myself = some me ∧
          (found = [] → me.id = 1) ∧
          (∀ a rest, found = a :: rest → me.id = rest.foldl max a + 1) ∧
          (∀ d ∈ found, d < me.id)) ∧
      (master = true → g.myself = some ⟨999⟩) := by
  obtain ⟨found, hfound, hg⟩ := IsReadyToRun_ready gm g master env h
  refine ⟨found, hfound, by rw [hg], ?_, ?_⟩
  · intro hm
    subst hm
    obtain ⟨n1, n2, n3⟩ := next_id_above found (playerNumbers_range _ _ found hfound)
    refine ⟨_, by rw [hg], ?_, ?_, ?_⟩
    · intro hnil
      exact n1 hnil
    · intro a rest hf
      exact n2 a rest hf
    · intro d hd
      exact n3 d hd
  · intro hm
    subst hm
    rw [hg]
    rfl

/-- Instance of C13: the players 3, 1 and 2 are registered; a new player
takes the id 4, a master the id 999. -/
theorem own_id_above_discovered_witness :
    (∃ found,
      playerNumbers (NewV23Manager "croupier").rootName
        (calm (directoryOf "croupier" [3, 1, 2])).glob = .ok found ∧
      (afterReady 4 [1, 2, 3] false).initialPlayerNumbers = sortInts found ∧
      (false = false →
        ∃ me, (afterReady 4 [1, 2, 3] false).myself = some me ∧
          (found = [] → me.id = 1) ∧
          (∀ a rest, found = a :: rest → me.id = rest.foldl max a + 1) ∧
          (∀ d ∈ found, d < me.id)) ∧
      (false = true → (afterReady 4 [1, 2, 3] false).myself = some ⟨999⟩)) ∧
    (afterReady 4 [1, 2, 3] false).myself = some ⟨4⟩ :=
  ⟨own_id_above_discovered (NewV23Manager "croupier") (afterReady 4 [1, 2, 3] false) false
      (calm (directoryOf "croupier" [3, 1, 2])) rfl,
    rfl⟩

/-- C15, as stated, fails: the names `croupier0001` and `croupier1` both carry
the id 1, so the ids found are `[1, 1]` and the list that seeds the roster has
the id 1 twice. -/
theorem discovered_ids_with_duplicate :
    playerNumbers "croupier"
      (some [.entry "croupier0001", .entry "croupier1"]) = .ok [1, 1] ∧
    IsReadyToRun (NewV23Manager "croupier") false
      (calm [.entry "croupier0001", .entry "croupier1"]) =
      .returned true (afterReady 2 [1, 1] false) ∧
    ¬ (afterReady 2 [1, 1] false).initialPlayerNumbers.Nodup := by
  refine ⟨rfl, rfl, ?_⟩
  have h : (afterReady 2 [1, 1] false).initialPlayerNumbers = [1, 1] := rfl
  rw [h]
  decide

/-- C15 (amended): for every sequence of replies of the directory lookup whose
names are at least as long as the root name (as names matching the pattern
are), discovery returns, and it returns the empty list when the lookup fails;
the ids found are, in order and with repetitions, the ids of the names that
are not empty and whose suffix after the root name parses as a base-10 32-bit
integer, every other reply being skipped; the list that seeds the roster is
these ids sorted ascending, and it is strictly ascending, without duplicate
ids, when no two names carry the same id. -/
theorem discovered_ids_sorted (rootName : String) (replies : List GlobReply)
    (hlong : ∀ r ∈ replies, longEnough rootName r) :
    playerNumbers rootName none = .ok [] ∧
    playerNumbers rootName (some replies) =
      .ok (replies.filterMap (idOfReply rootName)) ∧
    List.Sorted (· ≤ ·) (sortInts (replies.filterMap (idOfReply rootName))) ∧
    (sortInts (replies.filterMap (idOfReply rootName))).Perm
      (replies.filterMap (idOfReply rootName)) ∧
    ((replies.filterMap (idOfReply rootName)).Nodup →
      List.Sorted (· < ·) (sortInts (replies.filterMap (idOfReply rootName))) ∧
      (sortInts (replies.filterMap (idOfReply rootName))).Nodup) ∧
    (∀ gm master env g, gm.rootName = rootName → env.glob = some replies →
      IsReadyToRun gm master env = .returned true g →
      g.initialPlayerNumbers = sortInts (replies.filterMap (idOfReply rootName))) := by
  have hpn : playerNumbers rootName (some replies) =
      .ok (replies.filterMap (idOfReply rootName)) := by
    obtain ⟨found, hf⟩ := playerNumbersLoop_returns rootName replies [] hlong
    have he := playerNumbersLoop_eq rootName replies [] found hf
    simp only [List.nil_append] at he
    rw [← he]
    exact hf
  refine ⟨rfl, hpn, sortInts_sorted _, sortInts_perm _, ?_, ?_⟩
  · intro hnd
    have hnd2 : (sortInts (replies.filterMap (idOfReply rootName))).Nodup :=
      (sortInts_perm _).nodup_iff.mpr hnd
    exact ⟨(sortInts_sorted _).lt_of_le hnd2, hnd2⟩
  · intro gm master env g hroot hglob hready
    obtain ⟨found, hfound, hg⟩ := IsReadyToRun_ready gm g master env hready
    rw [hroot, hglob, hpn] at hfound
    simp only [Except.ok.injEq] at hfound
    rw [hg, ← hfound]

/-- Instance of C15 (amended): the replies carry the names of the players 12
and 3, an empty name, a name with a malformed suffix and a reply of another
type; the ids found are `[12, 3]` and the list that seeds the roster is
`[3, 12]`. -/
theorem discovered_ids_sorted_witness :
    playerNumbers "croupier"
      (some [.entry "croupier0012", .entry "", .entry "croupierx1", .other,
        .entry "croupier0003"]) =
      .ok (List.filterMap (idOfReply "croupier")
        [.entry "croupier0012", .entry "", .entry "croupierx1", .other,
          .entry "croupier0003"]) ∧
    List.filterMap (idOfReply "croupier")
      [.entry "croupier0012", .entry "", .entry "croupierx1", .other,
        .entry "croupier0003"] = [12, 3] ∧
    sortInts [12, 3] = [3, 12] :=
  ⟨(discovered_ids_sorted "croupier"
      [.entry "croupier0012", .entry "", .entry "croupierx1", .other,
        .entry "croupier0003"] (by decide)).2.1,
    rfl, rfl⟩

/-- C16, as stated, fails: with no player name registered, `initialize` of the
older manager takes the player number 0, not 1, and serves under
`croupier/player0000`, not under `serverName(1)`. -/
theorem initialize_with_no_player_takes_zero :
    (initializeManager NewGameManager (some []) false).state.myNumber = 0 ∧
    (initializeManager NewGameManager (some []) false).state.myNumber ≠ 0 + 1 ∧
    (initializeManager NewGameManager (some []) false).state.served =
      ["croupier/player0000"] ∧
    (initializeManager NewGameManager (some []) false).state.served ≠
      [gameServerName (0 + 1)] := by
  refine ⟨rfl, ?_, rfl, ?_⟩
  · have h : (initializeManager NewGameManager (some []) false).state.myNumber = 0 := rfl
    rw [h]
    decide
  · have h : (initializeManager NewGameManager (some []) false).state.served =
        ["croupier/player0000"] := rfl
    rw [h]
    decide

/-- C16 (amended): for every number `n` of player names registered in the
directory, `initialize` of the older manager takes the player number `n`, the
count itself, and serves under `serverName(n)`: with no player registered it
takes the number 0, with one player registered the number 1, and so on. -/
theorem initialize_takes_count (names : List String) (serveErr : Bool)
    (hne : ∀ name ∈ names, name ≠ "") (hlen : (names.length : Int) < 2 ^ 63) :
    (initializeManager NewGameManager (some (names.map GlobReply.entry))
      serveErr).state.myNumber = names.length ∧
    (initializeManager NewGameManager (some (names.map GlobReply.entry))
      serveErr).state.served = [gameServerName names.length] := by
  have hcount : playerCount (some (names.map GlobReply.entry)) = names.length := by
    unfold playerCount
    simp only
    rw [playerCountLoop_names names 0 hne (le_refl _) (by omega)]
    omega
  unfold initializeManager registerService
  simp only [hcount]
  cases serveErr <;> simp [GameOutcome.state, NewGameManager]

/-- Instance of C16 (amended): with no name registered the manager takes the
number 0 and serves under `croupier/player0000`; with one name registered it
takes the number 1. -/
theorem initialize_takes_count_witness :
    ((initializeManager NewGameManager (some (List.map GlobReply.entry [])) false).state.myNumber =
        ((([] : List String).length : Nat) : Int) ∧
      (initializeManager NewGameManager (some (List.map GlobReply.entry [])) false).state.served =
        [gameServerName ((([] : List String).length : Nat) : Int)]) ∧
    (initializeManager NewGameManager (some []) false).state.myNumber = 0 ∧
    (initializeManager NewGameManager (some []) false).state.served =
      ["croupier/player0000"] ∧
    (initializeManager NewGameManager (some [.entry "croupier/player0000"])
      false).state.myNumber = 1 :=
  ⟨initialize_takes_count [] false (by simp) (by norm_num), rfl, rfl, rfl⟩

/-- C18: a new player that is not master is rightmost: on a new manager, when
`IsReadyToRun` has returned true and `RunPrep` has returned, the first door
check of `Run` returns with the right door Closed, the left door Open exactly
when some id was found in the directory, and the notifications sent so far
are the one command `(Open, Left)` when some id was found and none otherwise;
the roster holds the ids found. -/
theorem new_player_is_rightmost (rootName : String) (env : Startup) (chBc : Chan)
    (helloErr : Nat → Bool) (g1 g2 : V23Manager)
    (h1 : IsReadyToRun (NewV23Manager rootName) false env = .returned true g1)
    (h2 : RunPrep g1 chBc helloErr = .done g2) :
    ∃ g3, Run g2 [] = .done g3 ∧
      g3.rightDoor = .Closed ∧
      (g3.leftDoor = .Open ↔ g1.initialPlayerNumbers ≠ []) ∧
      g3.doorsSent = (if g1.initialPlayerNumbers = [] then [] else [⟨.Open, .Left⟩]) ∧
      (ids g3.players).Perm g1.initialPlayerNumbers := by
  obtain ⟨found, hfound, hg1⟩ := IsReadyToRun_ready _ g1 false env h1
  obtain ⟨-, -, habove⟩ := next_id_above found (playerNumbers_range _ _ found hfound)
  simp only [Bool.false_eq_true, if_false] at hg1
  generalize chosenId found = myId at hg1 habove
  have hrun1 : g1.isRunning = false := by rw [hg1]; rfl
  have hme1 : g1.myself = some ⟨myId⟩ := by rw [hg1]
  have hinit : g1.initialPlayerNumbers = sortInts found := by rw [hg1]
  have hps1 : g1.players = [] := by rw [hg1]; rfl
  obtain ⟨c, -, hstate, -, -⟩ := RunPrep_spec g1 ⟨myId⟩ chBc helloErr hrun1 hme1
  rw [h2] at hstate
  simp only [Outcome.state, Outcome.returned] at hstate
  have hperm : (ids g2.players).Perm g1.initialPlayerNumbers := by
    have := perm_ids_insertAll g1.rootName g1.players g1.initialPlayerNumbers
    rw [hps1] at this
    simp only [ids, List.map_nil, List.append_nil] at this
    rw [hstate]
    simp only [hps1]
    exact this
  have hme2 : g2.myself = some ⟨myId⟩ := by rw [hstate]; exact hme1
  have hch2 : g2.chDoorCommand = .ready := by rw [hstate, hg1]; rfl
  have hl2 : g2.leftDoor = .Closed := by rw [hstate, hg1]; rfl
  have hr2 : g2.rightDoor = .Closed := by rw [hstate, hg1]; rfl
  have hsent2 : g2.doorsSent = [] := by rw [hstate, hg1]; rfl
  have hall : ∀ m ∈ g2.players, m.p.id < myId := by
    intro m hm
    have h3 : m.p.id ∈ ids g2.players := List.mem_map_of_mem _ hm
    have h4 := hperm.mem_iff.mp h3
    rw [hinit] at h4
    exact habove _ ((sortInts_perm found).mem_iff.mp h4)
  have hnil : g2.players = [] ↔ g1.initialPlayerNumbers = [] := by
    constructor
    · intro h
      have := hperm.length_eq
      rw [h] at this
      exact List.length_eq_zero.mp this.symm
    · intro h
      have := hperm.length_eq
      rw [h] at this
      simp only [ids, List.length_map, List.length_nil] at this
      exact List.length_eq_zero.mp this
  have htargets := doorTargets_rightmost myId g2.players hall
  rw [Run_nil, checkDoors_ready g2 ⟨myId⟩ hme2 hch2]
  refine ⟨_, rfl, ?_, ?_, ?_, ?_⟩
  · simp only [htargets]
    split_ifs <;> rfl
  · simp only [htargets]
    by_cases hp : g2.players = []
    · simp [hp, hnil.mp hp]
    · have hq : ¬ g1.initialPlayerNumbers = [] := fun h => hp (hnil.mpr h)
      simp [hp, hq]
  · simp only [htargets, hl2, hr2, hsent2]
    by_cases hp : g2.players = []
    · simp [hp, hnil.mp hp, doorDelta]
    · have hq : ¬ g1.initialPlayerNumbers = [] := fun h => hp (hnil.mpr h)
      simp [hp, hq, doorDelta]
  · exact hperm

/-- Instance of C18: the players 3, 1 and 2 are registered; the new player
takes the id 4, says hello to all three, and the first door check leaves the
doors `(Open, Closed)` and has sent the one command `(Open, Left)`. -/
theorem new_player_is_rightmost_witness :
    ∃ g3, Run (RunPrep (afterReady 4 [1, 2, 3] false) .ready (fun _ => false)).state [] =
        .done g3 ∧
      g3.rightDoor = .Closed ∧
      (g3.leftDoor = .Open ↔ (afterReady 4 [1, 2, 3] false).initialPlayerNumbers ≠ []) ∧
      g3.doorsSent =
        (if (afterReady 4 [1, 2, 3] false).initialPlayerNumbers = [] then []
          else [⟨.Open, .Left⟩]) ∧
      (ids g3.players).Perm (afterReady 4 [1, 2, 3] false).initialPlayerNumbers :=
  new_player_is_rightmost "croupier" (calm (directoryOf "croupier" [3, 1, 2])) .ready
    (fun _ => false) (afterReady 4 [1, 2, 3] false)
    (RunPrep (afterReady 4 [1, 2, 3] false) .ready (fun _ => false)).state rfl rfl

end Croupier
